import Mathlib

/-!
Verification of the vas-kernel core against its specification.

This file shallowly embeds the Python source of the repository:

* `ruth_ai_core/agent.py`, `ruth_ai_core/subscription.py`, `ruth_ai_core/types.py`
  (stream agent state, subscriptions, FPS gating);
* `backend/app/services/frame_buffer.py` (frame geometry, frame ring buffer);
* `backend/app/services/frame_exporter.py` (shared-memory frame export,
  64-byte metadata header);
* `ruth_ai_core/reconciliation.py`, `ruth_ai_core/agent_registry.py`
  (reconciliation engine);
* `ai_model_container/inference_handler.py`, `ai_model_container/schema.py`
  (stateless inference handler).

Conventions of the embedding:

* Python `float` time arithmetic of the FPS gate is modelled with exact
  rationals (`ℚ`); `datetime` timestamps become rational seconds.
* Python `int` becomes `Int` (or `ℕ` where the source guarantees
  non-negativity), with explicit `% 2 ^ w` only where the source packs
  machine integers.
* Python dictionaries with a fixed key set become structures whose fields
  are `Option`-valued (absent key = `none`).
* Raising code is embedded with `Except`/`Option`, or is inlined together
  with the `try/except` of its unique caller where the source catches the
  exception immediately.
-/

namespace VasKernel

/-! ## Stream agent state (`ruth_ai_core/types.py`, `subscription.py`, `agent.py`) -/

/-- `AgentState` from `ruth_ai_core/types.py`: the three lifecycle states. -/
inductive AgentState where
  | created
  | running
  | stopped
deriving DecidableEq, Repr

/-- The Python `.value` of each `AgentState` member (`types.py` defines
`CREATED = "created"`, `RUNNING = "running"`, `STOPPED = "stopped"`).
`reconciliation.py` compares this string against the literal `"CREATED"`. -/
def AgentState.value : AgentState → String
  | .created => "created"
  | .running => "running"
  | .stopped => "stopped"

/-- A value stored under the `"desired_fps"` key of a subscription config.
`agent.py` checks `isinstance(desired_fps, (int, float))`: numeric values are
modelled by `num` (exact rational), any non-numeric value by `other`. -/
inductive FpsVal where
  | num (q : ℚ)
  | other
deriving DecidableEq, Repr

/-- `Subscription` from `ruth_ai_core/subscription.py`, restricted to the
fields the dispatch path reads: the `config` dictionary is represented by its
`"desired_fps"` entry (`none` = key absent), plus the `active` flag, the two
dispatch-state fields and the two Phase 7 counters. -/
structure Subscription where
  modelId : String
  desiredFps : Option FpsVal
  active : Bool
  lastDispatchedFrameId : Option Int
  lastDispatchTs : Option ℚ
  dispatchCount : ℕ
  dropCount : ℕ
deriving DecidableEq, Repr

/-- `Subscription._increment_drop_count` (the `try/except` around the
increment never fires for a plain integer increment). -/
def Subscription.incDrop (s : Subscription) : Subscription :=
  { s with dropCount := s.dropCount + 1 }

/-- `StreamAgent.should_dispatch` from `ruth_ai_core/agent.py` (lines
285-388).  The agent contributes only its `state`; the result is the boolean
decision (`true` = ALLOW) together with the updated subscription (the drop
counter is the only field the method mutates).  Timestamps are rational
seconds; `elapsed = frame_timestamp - last_dispatch_timestamp` and
`min_interval_seconds = 1 / desired_fps` exactly as in the source. -/
def shouldDispatch (state : AgentState) (s : Subscription)
    (_frameId : Int) (frameTs : ℚ) : Bool × Subscription :=
  if state = .stopped then
    (false, s.incDrop)
  else if !s.active then
    (false, s.incDrop)
  else
    match s.desiredFps with
    | none => (true, s)
    | some .other => (false, s.incDrop)
    | some (.num f) =>
      if f ≤ 0 then
        (false, s.incDrop)
      else
        match s.lastDispatchTs with
        | none => (true, s)
        | some t0 =>
          if 1 / f ≤ frameTs - t0 then (true, s)
          else (false, s.incDrop)

/-- `StreamAgent.record_dispatch` from `ruth_ai_core/agent.py` (lines
390-439): a no-op for a STOPPED agent or an inactive subscription, otherwise
it stores the frame id and timestamp and bumps the dispatch counter. -/
def recordDispatch (state : AgentState) (s : Subscription)
    (frameId : Int) (frameTs : ℚ) : Subscription :=
  if state = .stopped then s
  else if !s.active then s
  else
    { s with
      lastDispatchedFrameId := some frameId
      lastDispatchTs := some frameTs
      dispatchCount := s.dispatchCount + 1 }

/-- One step of the dispatch loop used by the seed scenario of the spec:
ask `should_dispatch`, and on ALLOW call `record_dispatch` (as the docstring
of `should_dispatch` instructs the caller to do). -/
def dispatchStep (state : AgentState) (s : Subscription)
    (frameId : Int) (frameTs : ℚ) : Bool × Subscription :=
  let r := shouldDispatch state s frameId frameTs
  if r.1 then (true, recordDispatch state r.2 frameId frameTs) else (false, r.2)

/-- Feed a list of frame timestamps through `dispatchStep`, collecting the
decisions (frame ids are irrelevant to the gate and passed as 0). -/
def dispatchRun (state : AgentState) (s : Subscription) :
    List ℚ → List Bool × Subscription
  | [] => ([], s)
  | t :: ts =>
    let r := dispatchStep state s 0 t
    let rest := dispatchRun state r.2 ts
    (r.1 :: rest.1, rest.2)

/-- A fresh subscription as created by `StreamAgent.add_subscription` with
config `{"desired_fps": f}`. -/
def freshFpsSub (mid : String) (f : ℚ) : Subscription :=
  { modelId := mid, desiredFps := some (.num f), active := true
    lastDispatchedFrameId := none, lastDispatchTs := none
    dispatchCount := 0, dropCount := 0 }

/-- An invalid `desired_fps` config value: present but not a positive
number (`should_dispatch` step 4:
`not isinstance(desired_fps, (int, float)) or desired_fps <= 0`). -/
def invalidFpsConfig : FpsVal → Prop
  | .num q => q ≤ 0
  | .other => True

/-! ## Frame geometry (`backend/app/services/frame_buffer.py`) -/

/-- Python `str.lower()` restricted to ASCII strings (all pixel-format
strings in the repository are ASCII): lower-case every character. -/
def strLower (s : String) : String := ⟨s.data.map Char.toLower⟩

/-- `SUPPORTED_PIXEL_FORMAT` from `frame_buffer.py`. -/
def SUPPORTED_PIXEL_FORMAT : String := "nv12"

/-- `FrameGeometry.calculate_frame_size`: raises on a non-NV12 format,
otherwise `width*height + (width*height) // 2` (Python floor division,
`Int.fdiv`). -/
def calculateFrameSize (width height : Int) (pixelFormat : String) :
    Except String Int :=
  if strLower pixelFormat ≠ SUPPORTED_PIXEL_FORMAT then
    .error ("Unsupported pixel format: " ++ pixelFormat ++ ". Only "
      ++ SUPPORTED_PIXEL_FORMAT ++ " is supported.")
  else
    .ok (width * height + Int.fdiv (width * height) 2)

/-- `FrameGeometry.calculate_stride`: raises on a non-NV12 format, otherwise
the stride equals the width. -/
def calculateStride (width : Int) (pixelFormat : String) :
    Except String Int :=
  if strLower pixelFormat ≠ SUPPORTED_PIXEL_FORMAT then
    .error ("Unsupported pixel format: " ++ pixelFormat ++ ". Only "
      ++ SUPPORTED_PIXEL_FORMAT ++ " is supported.")
  else
    .ok width

/-- `FrameGeometry.validate_geometry`: pixel-format check first, then
positivity, then evenness; returns `(is_valid, error_message)`. -/
def validateGeometry (width height : Int) (pixelFormat : String) :
    Bool × Option String :=
  if strLower pixelFormat ≠ SUPPORTED_PIXEL_FORMAT then
    (false, some ("Unsupported pixel format: " ++ pixelFormat))
  else if width ≤ 0 ∨ height ≤ 0 then
    (false, some ("Invalid dimensions: " ++ toString width ++ "x"
      ++ toString height))
  else if width % 2 ≠ 0 ∨ height % 2 ≠ 0 then
    (false, some ("Width and height must be even for NV12: "
      ++ toString width ++ "x" ++ toString height))
  else
    (true, none)

/-! ## Frame ring buffer (`backend/app/services/frame_buffer.py`) -/

/-- The per-push arguments of `FrameRingBuffer.push` (the buffer never
inspects them; frame bytes are a byte list). -/
structure PushArgs where
  timestamp : ℚ
  width : Int
  height : Int
  pixelFormat : String
  stride : Int
  data : List ℕ
deriving Repr

/-- `FrameSlot` from `frame_buffer.py`: a ring-buffer entry. -/
structure FrameSlot where
  frameId : ℕ
  timestamp : ℚ
  cameraId : String
  width : Int
  height : Int
  pixelFormat : String
  stride : Int
  data : List ℕ
deriving Repr

/-- `FrameRingBuffer` state: pre-allocated slot list, write position,
monotonic frame counter, and the two statistics counters. -/
structure FrameRingBuffer where
  cameraId : String
  capacity : ℕ
  slots : List (Option FrameSlot)
  writePos : ℕ
  nextFrameId : ℕ
  totalFramesWritten : ℕ
  totalFramesDropped : ℕ
deriving Repr

/-- `FrameRingBuffer.__init__`: all slots `None`, counters zero. -/
def FrameRingBuffer.new (cameraId : String) (capacity : ℕ) : FrameRingBuffer :=
  { cameraId := cameraId, capacity := capacity
    slots := List.replicate capacity none
    writePos := 0, nextFrameId := 0
    totalFramesWritten := 0, totalFramesDropped := 0 }

/-- `FrameRingBuffer.push` (lines 181-233): assigns the next frame id,
increments the drop counter when the overwritten slot was occupied, writes
the slot and advances the write position modulo the capacity.  Returns the
assigned id together with the new state.  (The Python code indexes
`slots[write_pos]`, which presupposes a positive capacity; theorems about
`push` therefore carry `0 < capacity`.) -/
def FrameRingBuffer.push (rb : FrameRingBuffer) (a : PushArgs) :
    ℕ × FrameRingBuffer :=
  let frameId := rb.nextFrameId
  let slot : FrameSlot :=
    { frameId := frameId, timestamp := a.timestamp, cameraId := rb.cameraId
      width := a.width, height := a.height, pixelFormat := a.pixelFormat
      stride := a.stride, data := a.data }
  let dropped :=
    if (rb.slots.getD rb.writePos none).isSome then rb.totalFramesDropped + 1
    else rb.totalFramesDropped
  (frameId,
    { rb with
      slots := rb.slots.set rb.writePos (some slot)
      writePos := (rb.writePos + 1) % rb.capacity
      nextFrameId := frameId + 1
      totalFramesWritten := rb.totalFramesWritten + 1
      totalFramesDropped := dropped })

/-- `FrameRingBuffer.get_latest` (lines 235-245): the slot one position
before the write position; Python's `(write_pos - 1) % capacity` on a
possibly-negative left operand is `(write_pos + capacity - 1) % capacity`
for `write_pos < capacity`. -/
def FrameRingBuffer.getLatest (rb : FrameRingBuffer) : Option FrameSlot :=
  rb.slots.getD ((rb.writePos + rb.capacity - 1) % rb.capacity) none

/-- `FrameRingBuffer.get_frame` (lines 247-261): first slot in list order
holding the requested id, else nothing. -/
def FrameRingBuffer.getFrame (rb : FrameRingBuffer) (frameId : ℕ) :
    Option FrameSlot :=
  match rb.slots.find? (fun os => os.elim false (fun sl => sl.frameId == frameId)) with
  | some os => os
  | none => none

/-- `occupied_slots` of `FrameRingBuffer.get_stats`: the number of
non-`None` slots. -/
def FrameRingBuffer.occupiedSlots (rb : FrameRingBuffer) : ℕ :=
  rb.slots.countP Option.isSome

/-- `FrameRingBuffer.clear` (lines 293-299): empties the slot list and
resets the write position; the frame counter and statistics are untouched. -/
def FrameRingBuffer.clear (rb : FrameRingBuffer) : FrameRingBuffer :=
  { rb with slots := List.replicate rb.capacity none, writePos := 0 }

/-- A sequence of consecutive pushes, collecting the returned frame ids. -/
def FrameRingBuffer.pushAll (rb : FrameRingBuffer) :
    List PushArgs → List ℕ × FrameRingBuffer
  | [] => ([], rb)
  | a :: rest =>
    let r := rb.push a
    let rr := r.2.pushAll rest
    (r.1 :: rr.1, rr.2)

/-- Inert payload for ring-buffer scenarios (`push` never inspects it). -/
def dummyPush : PushArgs :=
  { timestamp := 0, width := 1920, height := 1080, pixelFormat := "nv12"
    stride := 1920, data := [] }

/-- State characterisation of a ring buffer of capacity `N` after `k`
pushes from fresh: write position `k % N`, next id `k`, drop counter
`k - N` (truncated subtraction, i.e. `max 0 (k - N)`), occupied count
`min k N`, and slot `i` occupied exactly when `i < k` or `N ≤ k`. -/
def RingInv (N k : ℕ) (rb : FrameRingBuffer) : Prop :=
  rb.capacity = N ∧ rb.slots.length = N ∧ rb.writePos = k % N ∧
  rb.nextFrameId = k ∧ rb.totalFramesDropped = k - N ∧
  rb.occupiedSlots = min k N ∧
  ∀ i, i < N → (rb.slots.getD i none).isSome = (decide (i < k) || decide (N ≤ k))

/-! ## Frame exporter (`backend/app/services/frame_exporter.py`)

`METADATA_STRUCT = struct.Struct("IQQIIIIQ16x")` has no byte-order prefix,
so Python uses *native* byte order and *native* alignment.  On the x86-64
Linux hosts this repository targets (`/dev/shm`, Docker images), native
means little-endian with `uint64` aligned to 8 bytes: the packed buffer is
`version(4) pad(4) frame_id(8) timestamp_ns(8) width(4) height(4)
pixel_format(4) stride(4) data_size(8) pad(16)`, 64 bytes in total
(alignment and `x` padding are zero bytes). -/

/-- The `n` little-endian bytes of `v % 256 ^ n`. -/
def leBytes (n v : ℕ) : List ℕ :=
  (List.range n).map (fun i => v / 256 ^ i % 256)

/-- Decode a little-endian byte list back to a natural number. -/
def leDecode (bs : List ℕ) : ℕ :=
  bs.foldr (fun b acc => acc * 256 + b) 0

/-- `METADATA_VERSION` from `frame_exporter.py`. -/
def METADATA_VERSION : ℕ := 1

/-- `PIXEL_FORMAT_NV12` from `frame_exporter.py`. -/
def PIXEL_FORMAT_NV12 : ℕ := 0

/-- `METADATA_STRUCT.pack(version, frame_id, timestamp_ns, width, height,
pixel_format, stride, data_size)` under native x86-64 alignment (see the
section comment): 4 alignment-padding bytes after `version` and 16 trailing
`16x` padding bytes. -/
def packMetadata (version frameId timestampNs width height pixelFormat
    stride dataSize : ℕ) : List ℕ :=
  leBytes 4 version ++ List.replicate 4 0 ++
  leBytes 8 frameId ++ leBytes 8 timestampNs ++
  leBytes 4 width ++ leBytes 4 height ++
  leBytes 4 pixelFormat ++ leBytes 4 stride ++
  leBytes 8 dataSize ++ List.replicate 16 0

/-- Modelled from the spec (§6 header table), for comparison with the
source's `packMetadata`: a fully packed little-endian layout with
`frame_id` at offset 4, `data_size` at offset 36 and 20 reserved zero
bytes at offset 44. -/
def packMetadataSpec (version frameId timestampNs width height pixelFormat
    stride dataSize : ℕ) : List ℕ :=
  leBytes 4 version ++
  leBytes 8 frameId ++ leBytes 8 timestampNs ++
  leBytes 4 width ++ leBytes 4 height ++
  leBytes 4 pixelFormat ++ leBytes 4 stride ++
  leBytes 8 dataSize ++ List.replicate 20 0

/-- `struct.pack` raises `struct.error` when an argument does not fit its
field; this predicate is the in-range condition for `METADATA_STRUCT`. -/
def packInRange (version frameId timestampNs width height pixelFormat
    stride dataSize : ℕ) : Prop :=
  version < 2 ^ 32 ∧ frameId < 2 ^ 64 ∧ timestampNs < 2 ^ 64 ∧
  width < 2 ^ 32 ∧ height < 2 ^ 32 ∧ pixelFormat < 2 ^ 32 ∧
  stride < 2 ^ 32 ∧ dataSize < 2 ^ 64

instance (version frameId timestampNs width height pixelFormat
    stride dataSize : ℕ) : Decidable (packInRange version frameId
      timestampNs width height pixelFormat stride dataSize) := by
  unfold packInRange; infer_instance

/-- A filesystem effect of the export path: writing a byte payload to a
path, or an atomic `os.replace` rename. -/
inductive ExportEvent where
  | writeFile (path : String) (bytes : List ℕ)
  | rename (src dst : String)
deriving DecidableEq, Repr

/-- `FrameExporter.__init__` state: camera id and the `_initialized` flag. -/
structure FrameExporter where
  cameraId : String
  initialized : Bool
deriving Repr

/-- `self.camera_dir / "frame.data"` for `SHM_BASE_PATH = "/dev/shm/vas"`. -/
def FrameExporter.frameDataPath (ex : FrameExporter) : String :=
  "/dev/shm/vas/" ++ ex.cameraId ++ "/frame.data"

/-- `self.camera_dir / "frame.meta"`. -/
def FrameExporter.frameMetaPath (ex : FrameExporter) : String :=
  "/dev/shm/vas/" ++ ex.cameraId ++ "/frame.meta"

/-- The characters strictly before the last `'.'`, or `none` when there is
no dot. -/
def beforeLastDot : List Char → Option (List Char)
  | [] => none
  | c :: rest =>
    match beforeLastDot rest with
    | some tail => some (c :: tail)
    | none => if c = '.' then some [] else none

/-- `pathlib.Path.with_suffix`: replace the suffix after the last dot (all
paths this is applied to end in a dotted file name, where this agrees with
`pathlib`'s final-component rule). -/
def withSuffix (p suffix : String) : String :=
  match beforeLastDot p.data with
  | none => p ++ suffix
  | some pre => ⟨pre⟩ ++ suffix

/-- Failure model for the export path: the I/O steps of `export_frame` in
program order are `0` = write the data temp file, `1` = rename it over
`frame.data`, `2` = write the metadata temp file, `3` = rename it over
`frame.meta`; `failAt = some k` makes step `k` raise (`OSError` etc.),
`none` lets every step succeed. -/
abbrev FailProfile := Option ℕ

/-- The body of the `try` block of `FrameExporter.export_frame` (lines
154-186): the emitted filesystem events, or the events emitted before the
first raising step.  The metadata pack (between steps 1 and 2) raises
`struct.error` when an argument is out of range. -/
def exportFrameTry (ex : FrameExporter) (frameId timestampNs : ℕ)
    (width height : ℕ) (_pixelFormat : String) (stride : ℕ)
    (data : List ℕ) (failAt : FailProfile) :
    Except (List ExportEvent) (List ExportEvent) :=
  -- pixel_format_code = PIXEL_FORMAT_NV12 regardless of the argument
  let dataSize := data.length
  let tempDataPath := withSuffix ex.frameDataPath ".tmp"
  if failAt = some 0 then .error []
  else
    let t0 := [ExportEvent.writeFile tempDataPath data]
    if failAt = some 1 then .error t0
    else
      let t1 := t0 ++ [ExportEvent.rename tempDataPath ex.frameDataPath]
      if ¬ packInRange METADATA_VERSION frameId timestampNs width height
          PIXEL_FORMAT_NV12 stride dataSize then .error t1
      else
        let metadataBytes := packMetadata METADATA_VERSION frameId
          timestampNs width height PIXEL_FORMAT_NV12 stride dataSize
        let tempMetaPath := withSuffix ex.frameMetaPath ".tmp"
        if failAt = some 2 then .error t1
        else
          let t2 := t1 ++ [ExportEvent.writeFile tempMetaPath metadataBytes]
          if failAt = some 3 then .error t2
          else .ok (t2 ++ [ExportEvent.rename tempMetaPath ex.frameMetaPath])

/-- `FrameExporter.export_frame` (lines 118-191): returns silently when not
initialized; otherwise runs the `try` body; the surrounding
`except Exception` swallows every failure (logging only), so the method
always returns normally — rendered here by totality: the result is the list
of filesystem events that took effect. -/
def exportFrame (ex : FrameExporter) (frameId timestampNs : ℕ)
    (width height : ℕ) (pixelFormat : String) (stride : ℕ)
    (data : List ℕ) (failAt : FailProfile) : List ExportEvent :=
  if !ex.initialized then []
  else
    match exportFrameTry ex frameId timestampNs width height pixelFormat
      stride data failAt with
    | .ok t => t
    | .error t => t

/-! ## Reconciliation engine (`ruth_ai_core/reconciliation.py`,
`ruth_ai_core/agent_registry.py`)

Assignment dictionaries carry opaque values under `desired_fps`,
`priority` and `parameters`; the engine only moves them around and compares
them, so the value type is a parameter `Val` with decidable equality.
Python dictionaries keyed by strings (`_subscriptions`, `_agents`, the
grouping dict, `desired_configs`) are association lists with unique keys in
insertion order, accessed through `alookup`. -/

/-- First-match association-list lookup (Python `dict[k]` / `dict.get`). -/
def alookup {β : Type} : List (String × β) → String → Option β
  | [], _ => none
  | p :: l, k => if p.1 = k then some p.2 else alookup l k

/-- Python dict insertion-or-overwrite `d[k] = v`: replace the existing
binding in place, else append. -/
def aupsert {β : Type} (l : List (String × β)) (k : String) (v : β) :
    List (String × β) :=
  if (alookup l k).isSome then
    l.map (fun p => if p.1 = k then (k, v) else p)
  else l ++ [(k, v)]

/-- Python truthiness of an optional string: `None` and `""` are falsy
(`if not camera_id`, `if not model_id`). -/
def falsyStr : Option String → Bool
  | none => true
  | some s => s == ""

/-- One backend assignment record as consumed by the engine
(`assignment.get("camera_id")`, `.get("model_id")`, `.get("desired_fps")`,
`.get("priority")`, `.get("parameters")`; `none` = key absent or `None`). -/
structure Assignment (Val : Type) where
  cameraId : Option String
  modelId : Option String
  desiredFps : Option Val
  priority : Option Val
  parameters : Option Val

/-- A subscription config as built by
`ReconciliationEngine._build_subscription_config` (lines 320-349): a dict
over the keys `desired_fps`, `priority`, `parameters`, each present exactly
when present on the assignment. -/
structure SubConfig (Val : Type) where
  desiredFps : Option Val
  priority : Option Val
  parameters : Option Val
deriving DecidableEq

/-- The empty config dict `{}` (`desired_configs.get(model_id, {})`). -/
def SubConfig.empty {Val : Type} : SubConfig Val :=
  { desiredFps := none, priority := none, parameters := none }

/-- `_build_subscription_config`: copy each present assignment field. -/
def buildSubscriptionConfig {Val : Type} (a : Assignment Val) : SubConfig Val :=
  { desiredFps := a.desiredFps, priority := a.priority
    parameters := a.parameters }

/-- `_config_changed` (lines 351-370): plain dict inequality. -/
def configChanged {Val : Type} [DecidableEq Val]
    (current desired : SubConfig Val) : Bool :=
  current ≠ desired

/-- A `StreamAgent` as the reconciliation engine uses it: its lifecycle
state and its `_subscriptions` dict.  Reconciliation reads only a
subscription's `model_id` and `config` (counters and dispatch state never
influence it), so each subscription is its `(model_id, config)` pair. -/
structure ReconAgent (Val : Type) where
  cameraId : String
  state : AgentState
  subs : List (String × SubConfig Val)

/-- `AgentRegistry._agents`: camera id → agent. -/
abbrev Registry (Val : Type) := List (String × ReconAgent Val)

/-- `AgentRegistry.get_or_create_agent` (agent_registry.py lines 42-77):
return the existing agent or insert a fresh CREATED one. -/
def getOrCreateAgent {Val : Type} (reg : Registry Val) (cameraId : String) :
    ReconAgent Val × Registry Val :=
  match alookup reg cameraId with
  | some a => (a, reg)
  | none =>
    let a : ReconAgent Val := { cameraId := cameraId, state := .created, subs := [] }
    (a, reg ++ [(cameraId, a)])

/-- Store the reconciled agent back under its camera id (in Python the
registry holds the mutated object itself). -/
def setAgent {Val : Type} (reg : Registry Val) (cameraId : String)
    (a : ReconAgent Val) : Registry Val :=
  reg.map (fun p => if p.1 = cameraId then (cameraId, a) else p)

/-- Per-camera statistics of `_reconcile_camera`. -/
structure CameraStats where
  added : ℕ
  removed : ℕ
  updated : ℕ
  errors : ℕ
deriving DecidableEq, Repr

/-- The desired-model collection loop of `_reconcile_camera` (lines
224-237): skip assignments with a falsy `model_id` (counting an error),
otherwise record `model_id → build_config(assignment)` (a repeated
`model_id` overwrites, as for a Python dict).  Returns the
`desired_configs` dict and the error count. -/
def collectDesired {Val : Type} (as_ : List (Assignment Val)) :
    List (String × SubConfig Val) × ℕ :=
  as_.foldl
    (fun acc a =>
      match a.modelId with
      | none => (acc.1, acc.2 + 1)
      | some mid =>
        if mid = "" then (acc.1, acc.2 + 1)
        else (aupsert acc.1 mid (buildSubscriptionConfig a), acc.2))
    ([], 0)

/-- The add loop of `_reconcile_camera` (lines 245-261):
`agent.add_subscription(model_id, config)` raises `ValueError` on an empty
or duplicate `model_id` (caught, counted as an error); otherwise the
subscription dict gains the binding. -/
def addStep {Val : Type} (desired : List (String × SubConfig Val))
    (acc : ReconAgent Val × ℕ × ℕ) (k : String) : ReconAgent Val × ℕ × ℕ :=
  let cfg := (alookup desired k).getD SubConfig.empty
  if k = "" ∨ (alookup acc.1.subs k).isSome then
    (acc.1, acc.2.1, acc.2.2 + 1)
  else
    ({ acc.1 with subs := acc.1.subs ++ [(k, cfg)] }, acc.2.1 + 1, acc.2.2)

def addLoop {Val : Type} (agent : ReconAgent Val)
    (desired : List (String × SubConfig Val)) (toAdd : List String) :
    ReconAgent Val × ℕ × ℕ :=
  toAdd.foldl (addStep desired) (agent, 0, 0)

/-- The remove loop of `_reconcile_camera` (lines 264-279):
`agent.remove_subscription(model_id)` raises `KeyError` on an unknown id
(caught, counted as an error); otherwise the binding is deleted. -/
def removeStep {Val : Type} (acc : ReconAgent Val × ℕ × ℕ) (k : String) :
    ReconAgent Val × ℕ × ℕ :=
  if (alookup acc.1.subs k).isSome then
    ({ acc.1 with subs := acc.1.subs.filter (fun p => p.1 ≠ k) },
      acc.2.1 + 1, acc.2.2)
  else (acc.1, acc.2.1, acc.2.2 + 1)

def removeLoop {Val : Type} (agent : ReconAgent Val) (toRemove : List String) :
    ReconAgent Val × ℕ × ℕ :=
  toRemove.foldl removeStep (agent, 0, 0)

/-- The update loop of `_reconcile_camera` (lines 282-309): for each model
in both sets, skip a vanished subscription, and on a config change do
`remove_subscription` + `add_subscription` (the re-add raises only on an
empty or duplicate id, caught as an error). -/
def updateStep {Val : Type} [DecidableEq Val]
    (desired : List (String × SubConfig Val))
    (acc : ReconAgent Val × ℕ × ℕ) (k : String) : ReconAgent Val × ℕ × ℕ :=
  match alookup acc.1.subs k with
  | none => acc
  | some currentConfig =>
    let desiredConfig := (alookup desired k).getD SubConfig.empty
    if configChanged currentConfig desiredConfig then
      let afterRemove :=
        { acc.1 with subs := acc.1.subs.filter (fun p => p.1 ≠ k) }
      if k = "" ∨ (alookup afterRemove.subs k).isSome then
        (afterRemove, acc.2.1, acc.2.2 + 1)
      else
        ({ afterRemove with subs := afterRemove.subs ++ [(k, desiredConfig)] },
          acc.2.1 + 1, acc.2.2)
    else acc

def updateLoop {Val : Type} [DecidableEq Val] (agent : ReconAgent Val)
    (desired : List (String × SubConfig Val)) (toCheck : List String) :
    ReconAgent Val × ℕ × ℕ :=
  toCheck.foldl (updateStep desired) (agent, 0, 0)

/-- `ReconciliationEngine._reconcile_camera` (lines 175-318).  The start
guard compares `agent.state.value` — always lowercase — against the literal
`"CREATED"`; when it matches, `agent.start()` raises unless the state is
CREATED (caught: error count, early return). -/
def reconcileCamera {Val : Type} [DecidableEq Val] (agent : ReconAgent Val)
    (desiredAssignments : List (Assignment Val)) :
    ReconAgent Val × CameraStats :=
  if agent.state.value = "CREATED" ∧ agent.state ≠ .created then
    (agent, { added := 0, removed := 0, updated := 0, errors := 1 })
  else
    let agent :=
      if agent.state.value = "CREATED" then { agent with state := .running }
      else agent
    let currentModelIds := agent.subs.map Prod.fst
    let collected := collectDesired desiredAssignments
    let desired := collected.1
    let desiredModelIds := desired.map Prod.fst
    let toAdd := desiredModelIds.filter (fun k => !currentModelIds.contains k)
    let toRemove := currentModelIds.filter (fun k => !desiredModelIds.contains k)
    let toCheck := desiredModelIds.filter (fun k => currentModelIds.contains k)
    let ra := addLoop agent desired toAdd
    let rr := removeLoop ra.1 toRemove
    let ru := updateLoop rr.1 desired toCheck
    (ru.1,
      { added := ra.2.1, removed := rr.2.1, updated := ru.2.1
        errors := collected.2 + ra.2.2 + rr.2.2 + ru.2.2 })

/-- Whole-run statistics of `reconcile_all`. -/
structure ReconStats where
  camerasProcessed : ℕ
  subscriptionsAdded : ℕ
  subscriptionsRemoved : ℕ
  subscriptionsUpdated : ℕ
  errors : ℕ
deriving DecidableEq, Repr

/-- The grouping loop of `reconcile_all` (lines 111-130): skip assignments
with a falsy `camera_id` (counting an error), otherwise append the
assignment to its camera's group (groups keep first-appearance order). -/
def groupByCamera {Val : Type} (as_ : List (Assignment Val)) :
    List (String × List (Assignment Val)) × ℕ :=
  as_.foldl
    (fun acc a =>
      match a.cameraId with
      | none => (acc.1, acc.2 + 1)
      | some cid =>
        if cid = "" then (acc.1, acc.2 + 1)
        else
          match alookup acc.1 cid with
          | some grp => (aupsert acc.1 cid (grp ++ [a]), acc.2)
          | none => (acc.1 ++ [(cid, [a])], acc.2))
    ([], 0)

/-- One iteration of the per-camera loop of `reconcile_all`: get or create
the camera's agent, reconcile it, store it back, and aggregate
statistics. -/
def reconcileAllStep {Val : Type} [DecidableEq Val]
    (acc : Registry Val × ReconStats)
    (g : String × List (Assignment Val)) : Registry Val × ReconStats :=
  let ga := getOrCreateAgent acc.1 g.1
  let rc := reconcileCamera ga.1 g.2
  (setAgent ga.2 g.1 rc.1,
    { camerasProcessed := acc.2.camerasProcessed + 1
      subscriptionsAdded := acc.2.subscriptionsAdded + rc.2.added
      subscriptionsRemoved := acc.2.subscriptionsRemoved + rc.2.removed
      subscriptionsUpdated := acc.2.subscriptionsUpdated + rc.2.updated
      errors := acc.2.errors + rc.2.errors })

/-- `ReconciliationEngine.reconcile_all` (lines 70-173) against a backend
whose `fetch_all_assignments` returned `assignments`: empty fetch returns
zero statistics; otherwise group by camera and reconcile each camera,
aggregating statistics (the per-camera `try` never fires: every error path
inside `_reconcile_camera` is already caught there). -/
def reconcileAll {Val : Type} [DecidableEq Val] (reg : Registry Val)
    (assignments : List (Assignment Val)) : Registry Val × ReconStats :=
  if assignments.isEmpty then
    (reg, { camerasProcessed := 0, subscriptionsAdded := 0
            subscriptionsRemoved := 0, subscriptionsUpdated := 0, errors := 0 })
  else
    let grouped := groupByCamera assignments
    grouped.1.foldl reconcileAllStep
      (reg, { camerasProcessed := 0, subscriptionsAdded := 0
              subscriptionsRemoved := 0, subscriptionsUpdated := 0
              errors := grouped.2 })

/-- Key-list discipline of a Python string-keyed dict rendered as an
association list: keys are unique. -/
def SubsWF {Val : Type} (subs : List (String × SubConfig Val)) : Prop :=
  (subs.map Prod.fst).Nodup

/-- A representable agent registry: unique camera keys, and each agent's
subscription dict has unique model keys. -/
def RegistryWF {Val : Type} (reg : Registry Val) : Prop :=
  (reg.map Prod.fst).Nodup ∧ ∀ p ∈ reg, SubsWF p.2.subs

/-! ## Stateless inference handler (`ai_model_container/inference_handler.py`,
`ai_model_container/schema.py`) -/

/-- The fields of `InferenceRequest` the handler reads.  `frame_metadata`
is an opaque dict; the handler touches only `frame_metadata.get("frame_id",
0)`, embedded as `metaFrameId` (`none` = key absent).  A non-string
`frame_reference` cannot reach a constructed `InferenceRequest`
(`__post_init__` rejects it), and is not representable here. -/
structure InferenceReq where
  frameReference : String
  metaFrameId : Option Int
  cameraId : String
  modelId : String
deriving DecidableEq, Repr

/-- The fields of `InferenceResponse` the handler contract constrains:
the echoed identity, the detections and the optional error string.
Detections are opaque to the control flow, hence a type parameter. -/
structure InferenceResp (Det : Type) where
  modelId : String
  cameraId : String
  frameId : Int
  detections : List Det
  error : Option String

/-- Python `str.startswith`: character-level prefix test. -/
def strStartsWith (s prefixStr : String) : Bool :=
  prefixStr.data.isPrefixOf s.data

/-- `InferenceHandler._validate_frame_reference` (lines 372-398): falsy or
non-string references fail, then the path must start with `/dev/shm/` or
`/tmp/`. -/
def validateFrameReference (frameReference : String) : Bool :=
  if frameReference = "" then false
  else if !strStartsWith frameReference "/dev/shm/"
      && !strStartsWith frameReference "/tmp/" then false
  else true

/-- `InferenceHandler.__call__` (lines 293-370).  `inference` is the
outcome of `self._run_inference(request)` inside the `try` block:
`.ok dets` is a normal return, `.error e` an exception with message `e`.
An invalid reference short-circuits to the `Invalid frame reference`
response; the `except Exception` arm turns an exception into the
`Inference exception` response.  The handler never raises, which the
embedding renders by totality. -/
def handlerCall {Det : Type} (modelId : String) (req : InferenceReq)
    (inference : Except String (List Det)) : InferenceResp Det :=
  if !validateFrameReference req.frameReference then
    { modelId := modelId, cameraId := req.cameraId
      frameId := req.metaFrameId.getD 0, detections := []
      error := some ("Invalid frame reference: " ++ req.frameReference) }
  else
    match inference with
    | .ok dets =>
      { modelId := modelId, cameraId := req.cameraId
        frameId := req.metaFrameId.getD 0, detections := dets, error := none }
    | .error e =>
      { modelId := modelId, cameraId := req.cameraId
        frameId := req.metaFrameId.getD 0, detections := []
        error := some ("Inference exception: " ++ e) }


/-! ## Theorems

Helper lemmas first, then one theorem per specification claim (with its
witness or counterexample). -/

theorem ringInv_new (cid : String) (N : ℕ) : RingInv N 0 (FrameRingBuffer.new cid N) := by
  refine ⟨rfl, by simp [FrameRingBuffer.new], by simp [FrameRingBuffer.new], rfl,
    by simp [FrameRingBuffer.new, Nat.zero_sub], ?_, ?_⟩
  · simp [FrameRingBuffer.new, FrameRingBuffer.occupiedSlots, List.countP_eq_zero]
  · intro i hi
    simp [FrameRingBuffer.new, List.getD_eq_getElem?_getD, List.getElem?_replicate, hi]
    omega

theorem ringInv_push (N k : ℕ) (rb : FrameRingBuffer) (a : PushArgs)
    (hN : 0 < N) (h : RingInv N k rb) :
    (rb.push a).1 = k ∧ RingInv N (k + 1) (rb.push a).2 := by
  obtain ⟨hcap, hlen, hpos, hid, hdrop, hcount, hslots⟩ := h
  have hposlt : rb.writePos < N := hpos ▸ Nat.mod_lt _ hN
  have hwp : (rb.slots.getD rb.writePos none).isSome = decide (N ≤ k) := by
    rw [hslots rb.writePos hposlt, hpos]
    rcases Nat.lt_or_ge k N with hk | hk
    · simp [Nat.mod_eq_of_lt hk, Nat.not_le.2 hk]
    · simp [hk, Nat.le_trans (Nat.le_of_lt (Nat.mod_lt _ hN)) hk]
  refine ⟨hid, hcap, ?_, ?_, ?_, ?_, ?_, ?_⟩
  · simp [FrameRingBuffer.push, hlen]
  · simp only [FrameRingBuffer.push, hpos, hcap, Nat.mod_add_mod]
  · simp [FrameRingBuffer.push, hid]
  · simp only [FrameRingBuffer.push, hwp, hdrop]
    rcases Nat.lt_or_ge k N with hk | hk
    · simp [Nat.not_le.2 hk]; omega
    · simp [hk]; omega
  · simp only [FrameRingBuffer.push, FrameRingBuffer.occupiedSlots] at hcount ⊢
    have hposlen : rb.writePos < rb.slots.length := hlen ▸ hposlt
    rw [List.countP_set _ _ _ _ hposlen]
    have hget : rb.slots[rb.writePos] = rb.slots.getD rb.writePos none := by
      simp [List.getD_eq_getElem?_getD, List.getElem?_eq_getElem hposlen]
    rw [hget, hwp, hcount]
    rcases Nat.lt_or_ge k N with hk | hk
    · simp [Nat.not_le.2 hk]; omega
    · simp [hk]; omega
  · intro i hi
    simp only [FrameRingBuffer.push, List.getD_eq_getElem?_getD, List.getElem?_set]
    rcases eq_or_ne rb.writePos i with hij | hij
    · subst hij
      simp only [if_pos rfl, hlen ▸ hposlt, if_pos]
      simp only [Option.getD_some, Option.isSome_some, hpos]
      rcases Nat.lt_or_ge k N with hk | hk
      · simp [Nat.mod_eq_of_lt hk]
      · have : N ≤ k + 1 := Nat.le_succ_of_le hk
        simp [this]
    · rw [if_neg hij, ← List.getD_eq_getElem?_getD, hslots i hi]
      have hip : i ≠ k % N := fun hc => hij (hpos ▸ hc.symm)
      rcases Nat.lt_or_ge k N with hk | hk
      · have hik : i ≠ k := fun hc => hip (by rw [hc, Nat.mod_eq_of_lt hk])
        have : (i < k + 1) = (i < k) := by
          simp only [eq_iff_iff]
          omega
        simp [Nat.not_le.2 hk, Nat.not_le.2 (Nat.lt_of_succ_le (Nat.succ_le_of_lt hk)), this]
        omega
      · simp [hk, Nat.le_succ_of_le hk]

theorem ringInv_pushAll (N k : ℕ) (rb : FrameRingBuffer) (inputs : List PushArgs)
    (hN : 0 < N) (h : RingInv N k rb) :
    (rb.pushAll inputs).1 = List.range' k inputs.length ∧
      RingInv N (k + inputs.length) (rb.pushAll inputs).2 := by
  induction inputs generalizing k rb with
  | nil => simpa [FrameRingBuffer.pushAll] using h
  | cons a rest ih =>
    obtain ⟨h1, h2⟩ := ringInv_push N k rb a hN h
    obtain ⟨ih1, ih2⟩ := ih (k + 1) (rb.push a).2 h2
    refine ⟨?_, ?_⟩
    · simp [FrameRingBuffer.pushAll, ih1, h1, List.range'_succ]
    · simpa [FrameRingBuffer.pushAll, Nat.add_comm, Nat.add_assoc, Nat.add_left_comm] using ih2


/-- C1.  FPS gating: for a RUNNING agent and an active subscription with
`desired_fps = f > 0`, `should_dispatch` ALLOWs the first frame (no
`last_dispatch_timestamp`), and a later frame exactly when
`frame_timestamp - last_dispatch_timestamp ≥ 1/f`, otherwise SKIPs and
increments the drop counter; at 5 FPS with `record_dispatch` after each
ALLOW, frames at `0.00, 0.10, 0.19, 0.20, 0.25, 0.40` s decide
`ALLOW, SKIP, SKIP, ALLOW, SKIP, ALLOW` with final `dispatch_count = 3`,
`drop_count = 3`. -/
theorem fps_gating_correct (s : Subscription) (f : ℚ) (fid : Int) (ts : ℚ)
    (hact : s.active = true) (hfps : s.desiredFps = some (.num f))
    (hf : 0 < f) :
    (s.lastDispatchTs = none → shouldDispatch .running s fid ts = (true, s)) ∧
    (∀ t0, s.lastDispatchTs = some t0 →
      shouldDispatch .running s fid ts =
        if 1 / f ≤ ts - t0 then (true, s) else (false, s.incDrop)) ∧
    (dispatchRun .running (freshFpsSub "m1" 5)
        [0, 1/10, 19/100, 1/5, 1/4, 2/5]).1 =
      [true, false, false, true, false, true] ∧
    (dispatchRun .running (freshFpsSub "m1" 5)
        [0, 1/10, 19/100, 1/5, 1/4, 2/5]).2.dispatchCount = 3 ∧
    (dispatchRun .running (freshFpsSub "m1" 5)
        [0, 1/10, 19/100, 1/5, 1/4, 2/5]).2.dropCount = 3 := by
  have hnot : ¬ f ≤ 0 := not_le.mpr hf
  have h1 : dispatchStep .running (freshFpsSub "m1" 5) 0 0 =
      (true, ⟨"m1", some (.num 5), true, some 0, some 0, 1, 0⟩) := by
    simp [dispatchStep, shouldDispatch, recordDispatch, freshFpsSub]
    norm_num
  have h2 : dispatchStep .running ⟨"m1", some (.num 5), true, some 0, some 0, 1, 0⟩ 0 (1/10) =
      (false, ⟨"m1", some (.num 5), true, some 0, some 0, 1, 1⟩) := by
    simp [dispatchStep, shouldDispatch, recordDispatch, Subscription.incDrop]
    norm_num
  have h3 : dispatchStep .running ⟨"m1", some (.num 5), true, some 0, some 0, 1, 1⟩ 0 (19/100) =
      (false, ⟨"m1", some (.num 5), true, some 0, some 0, 1, 2⟩) := by
    simp [dispatchStep, shouldDispatch, recordDispatch, Subscription.incDrop]
    norm_num
  have h4 : dispatchStep .running ⟨"m1", some (.num 5), true, some 0, some 0, 1, 2⟩ 0 (1/5) =
      (true, ⟨"m1", some (.num 5), true, some 0, some (1/5), 2, 2⟩) := by
    simp [dispatchStep, shouldDispatch, recordDispatch, Subscription.incDrop]
    norm_num
  have h5 : dispatchStep .running ⟨"m1", some (.num 5), true, some 0, some (1/5), 2, 2⟩ 0 (1/4) =
      (false, ⟨"m1", some (.num 5), true, some 0, some (1/5), 2, 3⟩) := by
    simp [dispatchStep, shouldDispatch, recordDispatch, Subscription.incDrop]
    norm_num
  have h6 : dispatchStep .running ⟨"m1", some (.num 5), true, some 0, some (1/5), 2, 3⟩ 0 (2/5) =
      (true, ⟨"m1", some (.num 5), true, some 0, some (2/5), 3, 3⟩) := by
    simp [dispatchStep, shouldDispatch, recordDispatch, Subscription.incDrop]
    norm_num
  refine ⟨?_, ?_, ?_, ?_, ?_⟩
  · intro hlast
    simp [shouldDispatch, hact, hfps, hnot, hlast]
  · intro t0 hlast
    by_cases hc : 1 / f ≤ ts - t0 <;>
      simp [shouldDispatch, hact, hfps, hnot, hlast, hc]
  · simp only [dispatchRun, h1, h2, h3, h4, h5, h6]
  · simp only [dispatchRun, h1, h2, h3, h4, h5, h6]
  · simp only [dispatchRun, h1, h2, h3, h4, h5, h6]

/-- Witness for `fps_gating_correct` at the concrete subscription
`desired_fps = 5` and the first frame at `t = 0`. -/
theorem fps_gating_correct_witness :
    shouldDispatch .running (freshFpsSub "m1" 5) 0 0 =
      (true, freshFpsSub "m1" 5) :=
  (fps_gating_correct (freshFpsSub "m1" 5) 5 0 0 rfl rfl (by norm_num)).1 rfl

/-- C3.  Fail-closed: when the agent is STOPPED, or the subscription is
inactive, or `desired_fps` is present but not a positive number,
`should_dispatch` SKIPs and increments exactly the drop counter; and when
the agent is STOPPED or the subscription inactive, `record_dispatch` leaves
the subscription (its `last_dispatched_frame_id`,
`last_dispatch_timestamp`, `dispatch_count`) unchanged. -/
theorem fail_closed_dispatch (state : AgentState) (s : Subscription)
    (fid : Int) (ts : ℚ)
    (h : state = .stopped ∨ s.active = false ∨
      ∃ v, s.desiredFps = some v ∧ invalidFpsConfig v) :
    shouldDispatch state s fid ts = (false, s.incDrop) ∧
    (state = .stopped ∨ s.active = false →
      recordDispatch state s fid ts = s) := by
  constructor
  · rcases h with h | h | ⟨v, hv, hinv⟩
    · simp [shouldDispatch, h]
    · by_cases hst : state = .stopped <;> simp [shouldDispatch, hst, h]
    · by_cases hst : state = .stopped
      · simp [shouldDispatch, hst]
      · by_cases hac : s.active
        · cases v with
          | other => simp [shouldDispatch, hst, hac, hv]
          | num q =>
            have hq : q ≤ 0 := hinv
            simp [shouldDispatch, hst, hac, hv, hq]
        · simp [shouldDispatch, hst, hac]
  · intro h2
    rcases h2 with h2 | h2
    · simp [recordDispatch, h2]
    · by_cases hst : state = .stopped <;> simp [recordDispatch, hst, h2]

/-- Witness for `fail_closed_dispatch`: a STOPPED agent with a fresh 5 FPS
subscription. -/
theorem fail_closed_dispatch_witness :
    shouldDispatch .stopped (freshFpsSub "m1" 5) 0 0 =
      (false, (freshFpsSub "m1" 5).incDrop) ∧
    recordDispatch .stopped (freshFpsSub "m1" 5) 0 0 = freshFpsSub "m1" 5 :=
  ⟨(fail_closed_dispatch .stopped (freshFpsSub "m1" 5) 0 0 (Or.inl rfl)).1,
   (fail_closed_dispatch .stopped (freshFpsSub "m1" 5) 0 0 (Or.inl rfl)).2
     (Or.inl rfl)⟩

/-- C9.  Frame geometry validation accepts exactly NV12 with positive even
dimensions; `(1919, 1080, "NV12")` fails with the dimension-error signal,
`(1920, 1080, "yuv420")` with the unsupported-pixel-format signal; every
accepted geometry gets size `w*h + (w*h)/2` and stride `w`, in particular
`3110400` and `1920` for 1920x1080. -/
theorem frame_geometry_validation (w h : Int) (pf : String) :
    ((validateGeometry w h pf).1 = true ↔
      strLower pf = SUPPORTED_PIXEL_FORMAT ∧ 0 < w ∧ 0 < h ∧
        w % 2 = 0 ∧ h % 2 = 0) ∧
    validateGeometry 1919 1080 "NV12" =
      (false, some "Width and height must be even for NV12: 1919x1080") ∧
    validateGeometry 1920 1080 "yuv420" =
      (false, some "Unsupported pixel format: yuv420") ∧
    ((validateGeometry w h pf).1 = true →
      calculateFrameSize w h pf = .ok (w * h + Int.fdiv (w * h) 2) ∧
      calculateStride w pf = .ok w) ∧
    calculateFrameSize 1920 1080 "NV12" = .ok 3110400 ∧
    calculateStride 1920 "NV12" = .ok 1920 := by
  have hvalid : (validateGeometry w h pf).1 = true ↔
      strLower pf = SUPPORTED_PIXEL_FORMAT ∧ 0 < w ∧ 0 < h ∧
        w % 2 = 0 ∧ h % 2 = 0 := by
    unfold validateGeometry
    by_cases hpf : strLower pf = SUPPORTED_PIXEL_FORMAT
    · by_cases hwh : w ≤ 0 ∨ h ≤ 0
      · simp only [hpf, hwh]
        simp
        omega
      · by_cases heven : w % 2 ≠ 0 ∨ h % 2 ≠ 0
        · simp only [hpf, hwh, heven]
          simp
          omega
        · simp only [hpf, hwh, heven]
          simp
          omega
    · simp [hpf]
  refine ⟨hvalid, by decide, by decide, ?_, by rfl, by rfl⟩
  intro hv
  have hpf : strLower pf = SUPPORTED_PIXEL_FORMAT := (hvalid.mp hv).1
  constructor
  · simp [calculateFrameSize, hpf]
  · simp [calculateStride, hpf]

/-- Witness for `frame_geometry_validation` at the accepted geometry
`1920 x 1080`, NV12. -/
theorem frame_geometry_validation_witness :
    (validateGeometry 1920 1080 "NV12").1 = true ∧
    calculateFrameSize 1920 1080 "NV12" =
      .ok (1920 * 1080 + Int.fdiv (1920 * 1080) 2) :=
  ⟨by decide,
   ((frame_geometry_validation 1920 1080 "NV12").2.2.2.1 (by decide)).1⟩

/-- C5.  Ring monotonicity: from a fresh ring of capacity `N > 0`, any `K`
consecutive pushes return frame ids `0..K-1` in order, leave `min K N`
slots occupied and `K - N` (that is, `max 0 (K - N)` in `ℕ`) dropped
frames; with capacity 3 and 5 pushes: 3 occupied, 2 dropped,
`get_latest` holds frame id 4 and `get_frame(1)` returns nothing. -/
theorem ring_monotonicity (cid : String) (N : ℕ) (inputs : List PushArgs)
    (hN : 0 < N) :
    ((FrameRingBuffer.new cid N).pushAll inputs).1 =
      List.range inputs.length ∧
    ((FrameRingBuffer.new cid N).pushAll inputs).2.occupiedSlots =
      min inputs.length N ∧
    ((FrameRingBuffer.new cid N).pushAll inputs).2.totalFramesDropped =
      inputs.length - N ∧
    ((FrameRingBuffer.new "cam1" 3).pushAll
        (List.replicate 5 dummyPush)).2.occupiedSlots = 3 ∧
    ((FrameRingBuffer.new "cam1" 3).pushAll
        (List.replicate 5 dummyPush)).2.totalFramesDropped = 2 ∧
    (((FrameRingBuffer.new "cam1" 3).pushAll
        (List.replicate 5 dummyPush)).2.getLatest).map FrameSlot.frameId =
      some 4 ∧
    (((FrameRingBuffer.new "cam1" 3).pushAll
        (List.replicate 5 dummyPush)).2.getFrame 1).isNone = true := by
  obtain ⟨hids, hinv⟩ :=
    ringInv_pushAll N 0 (FrameRingBuffer.new cid N) inputs hN
      (ringInv_new cid N)
  obtain ⟨-, -, -, -, hdrop, hcount, -⟩ := hinv
  refine ⟨?_, ?_, ?_, by decide, by decide, by decide, by decide⟩
  · rw [hids, List.range_eq_range']
  · simpa using hcount
  · simpa using hdrop

/-- Witness for `ring_monotonicity`: capacity 3, the five pushes of the
seed scenario. -/
theorem ring_monotonicity_witness :
    ((FrameRingBuffer.new "cam1" 3).pushAll (List.replicate 5 dummyPush)).1 =
      List.range 5 :=
  List.length_replicate 5 dummyPush ▸
    (ring_monotonicity "cam1" 3 (List.replicate 5 dummyPush) (by decide)).1

/-- C10.  Frame ids survive `clear()`: `clear` empties every slot and
resets the write position but keeps the frame-id counter, so the first
push after a clear gets the id one greater than the last id assigned
before it. -/
theorem frame_ids_survive_clear (rb : FrameRingBuffer) (a b : PushArgs)
    (_hcap : 0 < rb.capacity) :
    rb.clear.slots = List.replicate rb.capacity none ∧
    rb.clear.writePos = 0 ∧
    rb.clear.nextFrameId = rb.nextFrameId ∧
    (rb.clear.push a).1 = rb.nextFrameId ∧
    (((rb.push b).2.clear).push a).1 = (rb.push b).1 + 1 := by
  exact ⟨rfl, rfl, rfl, rfl, rfl⟩

/-- Witness for `frame_ids_survive_clear`: a capacity-3 ring after one
push. -/
theorem frame_ids_survive_clear_witness :
    ((((FrameRingBuffer.new "cam1" 3).push dummyPush).2.clear).push
        dummyPush).1 =
      (((FrameRingBuffer.new "cam1" 3).push dummyPush).1) + 1 :=
  (frame_ids_survive_clear (FrameRingBuffer.new "cam1" 3) dummyPush
    dummyPush (by decide)).2.2.2.2

/-- C8.  The inference handler returns the `Invalid frame reference` error
response (empty detections) for an empty reference or one outside
`/dev/shm/` and `/tmp/`; an exception during inference becomes the
`Inference exception` error response (empty detections); whenever the
error is set the detections are empty; and the handler is total (never
propagates). -/
theorem inference_handler_never_raises {Det : Type} (modelId : String)
    (req : InferenceReq) (inference : Except String (List Det)) :
    (req.frameReference = "" ∨
        (¬ strStartsWith req.frameReference "/dev/shm/" ∧
         ¬ strStartsWith req.frameReference "/tmp/") →
      handlerCall modelId req inference =
        { modelId := modelId, cameraId := req.cameraId
          frameId := req.metaFrameId.getD 0, detections := []
          error := some ("Invalid frame reference: " ++ req.frameReference) }) ∧
    (∀ e, inference = .error e →
      validateFrameReference req.frameReference = true →
      handlerCall modelId req inference =
        { modelId := modelId, cameraId := req.cameraId
          frameId := req.metaFrameId.getD 0, detections := []
          error := some ("Inference exception: " ++ e) }) ∧
    ((handlerCall modelId req inference).error.isSome →
      (handlerCall modelId req inference).detections = []) := by
  refine ⟨?_, ?_, ?_⟩
  · intro h
    rcases h with h | ⟨h1, h2⟩
    · simp [handlerCall, validateFrameReference, h]
    · by_cases he : req.frameReference = "" <;>
        simp [handlerCall, validateFrameReference, he, h1, h2]
  · intro e he hv
    subst he
    simp [handlerCall, hv]
  · intro herr
    unfold handlerCall at herr ⊢
    by_cases hv : validateFrameReference req.frameReference
    · cases inference with
      | ok dets => simp [hv] at herr
      | error e => simp [hv]
    · simp [hv]

/-- Witness for `inference_handler_never_raises`: a reference outside the
allowed roots, with a failing inference. -/
theorem inference_handler_never_raises_witness :
    handlerCall "m1"
        { frameReference := "/etc/passwd", metaFrameId := some 7
          cameraId := "cam1", modelId := "m1" }
        (Except.error "boom" : Except String (List ℕ)) =
      { modelId := "m1", cameraId := "cam1", frameId := 7, detections := []
        error := some ("Invalid frame reference: " ++ "/etc/passwd") } :=
  (inference_handler_never_raises "m1"
      { frameReference := "/etc/passwd", metaFrameId := some 7
        cameraId := "cam1", modelId := "m1" } (.error "boom")).1
    (Or.inr ⟨by decide, by decide⟩)

theorem leBytes_length (n v : ℕ) : (leBytes n v).length = n := by
  simp [leBytes]

theorem leBytes_succ (n v : ℕ) :
    leBytes (n + 1) v = v % 256 :: leBytes n (v / 256) := by
  unfold leBytes
  rw [List.range_succ_eq_map, List.map_cons, List.map_map]
  refine congrArg₂ _ (by norm_num) ?_
  refine List.map_congr_left fun i _ => ?_
  simp [Function.comp, Nat.div_div_eq_div_mul, pow_succ, mul_comm,
    Nat.succ_eq_add_one]

theorem leDecode_leBytes (n v : ℕ) : leDecode (leBytes n v) = v % 256 ^ n := by
  induction n generalizing v with
  | zero => simp [leBytes, leDecode, Nat.mod_one]
  | succ n ih =>
    rw [leBytes_succ]
    show leDecode (leBytes n (v / 256)) * 256 + v % 256 = v % 256 ^ (n + 1)
    rw [ih, pow_succ', Nat.mod_mul]
    ring

theorem packMetadata_length (v fid ts w h pfc st ds : ℕ) :
    (packMetadata v fid ts w h pfc st ds).length = 64 := by
  simp [packMetadata, leBytes_length]

/-- C2 counterexample.  The claim asserts the packed little-endian layout
of the spec table (`frame_id` at bytes 4-11, 20 reserved bytes at offset
44); the code's `METADATA_STRUCT` has no byte-order prefix, so native
alignment inserts 4 padding bytes after `version`.  Concretely, for an
exported frame with `frame_id = 1` the header produced by `export_frame`
has byte 4 equal to 0 (padding), while the claimed layout puts the low
byte of `frame_id` (= 1) there; the two layouts differ. -/
theorem metadata_header_layout_counterexample :
    (exportFrame ⟨"cam1", true⟩ 1 0 4 2 "nv12" 4
        (List.replicate 12 0) none).get? 2 =
      some (.writeFile
        (withSuffix (FrameExporter.frameMetaPath ⟨"cam1", true⟩) ".tmp")
        (packMetadata 1 1 0 4 2 0 4 12)) ∧
    (packMetadata 1 1 0 4 2 0 4 12).get? 4 = some 0 ∧
    (packMetadataSpec 1 1 0 4 2 0 4 12).get? 4 = some 1 ∧
    packMetadata 1 1 0 4 2 0 4 12 ≠ packMetadataSpec 1 1 0 4 2 0 4 12 :=
  ⟨rfl, by decide, by decide, by decide⟩

/-- C2 (amended).  The `frame.meta` header produced by `export_frame` is
the 64-byte native-alignment little-endian layout: `version` at bytes 0-3,
4 zero padding bytes at 4-7, `frame_id` at 8-15, `timestamp_ns` at 16-23,
`width` at 24-27, `height` at 28-31, `pixel_format` at 32-35, `stride` at
36-39, `data_size` at 40-47, and 16 reserved zero bytes at offset 48. -/
theorem metadata_header_native_layout (v fid ts w h pfc st ds : ℕ)
    (hr : packInRange v fid ts w h pfc st ds) :
    (packMetadata v fid ts w h pfc st ds).length = 64 ∧
    leDecode ((packMetadata v fid ts w h pfc st ds).take 4) = v ∧
    ((packMetadata v fid ts w h pfc st ds).drop 4).take 4 =
      List.replicate 4 0 ∧
    leDecode (((packMetadata v fid ts w h pfc st ds).drop 8).take 8) = fid ∧
    leDecode (((packMetadata v fid ts w h pfc st ds).drop 16).take 8) = ts ∧
    leDecode (((packMetadata v fid ts w h pfc st ds).drop 24).take 4) = w ∧
    leDecode (((packMetadata v fid ts w h pfc st ds).drop 28).take 4) = h ∧
    leDecode (((packMetadata v fid ts w h pfc st ds).drop 32).take 4) = pfc ∧
    leDecode (((packMetadata v fid ts w h pfc st ds).drop 36).take 4) = st ∧
    leDecode (((packMetadata v fid ts w h pfc st ds).drop 40).take 8) = ds ∧
    (packMetadata v fid ts w h pfc st ds).drop 48 = List.replicate 16 0 ∧
    (∀ (ex : FrameExporter) (pixelFormat : String) (data : List ℕ),
      ex.initialized = true →
      packInRange METADATA_VERSION fid ts w h PIXEL_FORMAT_NV12 st
        data.length →
      (exportFrame ex fid ts w h pixelFormat st data none).get? 2 =
        some (.writeFile (withSuffix ex.frameMetaPath ".tmp")
          (packMetadata METADATA_VERSION fid ts w h PIXEL_FORMAT_NV12 st
            data.length))) := by
  obtain ⟨hv, hfid, hts, hw, hh, hpfc, hst, hds⟩ := hr
  have m32 : (2 : ℕ) ^ 32 = 256 ^ 4 := by norm_num
  have m64 : (2 : ℕ) ^ 64 = 256 ^ 8 := by norm_num
  have dec4 : ∀ x : ℕ, x < 2 ^ 32 → ∀ rest : List ℕ,
      leDecode ((leBytes 4 x ++ rest).take 4) = x := by
    intro x hx rest
    rw [List.take_left' (leBytes_length 4 x), leDecode_leBytes,
      Nat.mod_eq_of_lt (m32 ▸ hx)]
  have dec8 : ∀ x : ℕ, x < 2 ^ 64 → ∀ rest : List ℕ,
      leDecode ((leBytes 8 x ++ rest).take 8) = x := by
    intro x hx rest
    rw [List.take_left' (leBytes_length 8 x), leDecode_leBytes,
      Nat.mod_eq_of_lt (m64 ▸ hx)]
  have d1 : (packMetadata v fid ts w h pfc st ds).drop 4 =
      List.replicate 4 0 ++ (leBytes 8 fid ++ (leBytes 8 ts ++ (leBytes 4 w ++
        (leBytes 4 h ++ (leBytes 4 pfc ++ (leBytes 4 st ++
          (leBytes 8 ds ++ List.replicate 16 0))))))) := by
    unfold packMetadata
    simp only [List.append_assoc]
    rw [List.drop_left' (leBytes_length 4 v)]
  have d2 : (packMetadata v fid ts w h pfc st ds).drop 8 =
      leBytes 8 fid ++ (leBytes 8 ts ++ (leBytes 4 w ++ (leBytes 4 h ++
        (leBytes 4 pfc ++ (leBytes 4 st ++
          (leBytes 8 ds ++ List.replicate 16 0)))))) := by
    rw [show (8 : ℕ) = 4 + 4 from rfl, ← List.drop_drop, d1,
      List.drop_left' (List.length_replicate 4 0)]
  have d3 : (packMetadata v fid ts w h pfc st ds).drop 16 =
      leBytes 8 ts ++ (leBytes 4 w ++ (leBytes 4 h ++ (leBytes 4 pfc ++
        (leBytes 4 st ++ (leBytes 8 ds ++ List.replicate 16 0))))) := by
    rw [show (16 : ℕ) = 8 + 8 from rfl, ← List.drop_drop, d2,
      List.drop_left' (leBytes_length 8 fid)]
  have d4 : (packMetadata v fid ts w h pfc st ds).drop 24 =
      leBytes 4 w ++ (leBytes 4 h ++ (leBytes 4 pfc ++ (leBytes 4 st ++
        (leBytes 8 ds ++ List.replicate 16 0)))) := by
    rw [show (24 : ℕ) = 16 + 8 from rfl, ← List.drop_drop, d3,
      List.drop_left' (leBytes_length 8 ts)]
  have d5 : (packMetadata v fid ts w h pfc st ds).drop 28 =
      leBytes 4 h ++ (leBytes 4 pfc ++ (leBytes 4 st ++
        (leBytes 8 ds ++ List.replicate 16 0))) := by
    rw [show (28 : ℕ) = 24 + 4 from rfl, ← List.drop_drop, d4,
      List.drop_left' (leBytes_length 4 w)]
  have d6 : (packMetadata v fid ts w h pfc st ds).drop 32 =
      leBytes 4 pfc ++ (leBytes 4 st ++
        (leBytes 8 ds ++ List.replicate 16 0)) := by
    rw [show (32 : ℕ) = 28 + 4 from rfl, ← List.drop_drop, d5,
      List.drop_left' (leBytes_length 4 h)]
  have d7 : (packMetadata v fid ts w h pfc st ds).drop 36 =
      leBytes 4 st ++ (leBytes 8 ds ++ List.replicate 16 0) := by
    rw [show (36 : ℕ) = 32 + 4 from rfl, ← List.drop_drop, d6,
      List.drop_left' (leBytes_length 4 pfc)]
  have d8 : (packMetadata v fid ts w h pfc st ds).drop 40 =
      leBytes 8 ds ++ List.replicate 16 0 := by
    rw [show (40 : ℕ) = 36 + 4 from rfl, ← List.drop_drop, d7,
      List.drop_left' (leBytes_length 4 st)]
  have d9 : (packMetadata v fid ts w h pfc st ds).drop 48 =
      List.replicate 16 0 := by
    rw [show (48 : ℕ) = 40 + 8 from rfl, ← List.drop_drop, d8,
      List.drop_left' (leBytes_length 8 ds)]
  refine ⟨packMetadata_length v fid ts w h pfc st ds, ?_, ?_, ?_, ?_, ?_,
    ?_, ?_, ?_, ?_, d9, ?_⟩
  · unfold packMetadata
    simp only [List.append_assoc]
    exact dec4 v hv _
  · rw [d1, List.take_left' (List.length_replicate 4 0)]
  · rw [d2]; exact dec8 fid hfid _
  · rw [d3]; exact dec8 ts hts _
  · rw [d4]; exact dec4 w hw _
  · rw [d5]; exact dec4 h hh _
  · rw [d6]; exact dec4 pfc hpfc _
  · rw [d7]; exact dec4 st hst _
  · rw [d8]
    rw [List.take_left' (leBytes_length 8 ds), leDecode_leBytes,
      Nat.mod_eq_of_lt (m64 ▸ hds)]
  · intro ex pixelFormat data hinit hr2
    simp [exportFrame, exportFrameTry, hinit, hr2]

/-- Witness for `metadata_header_native_layout` at the header of the
1920x1080 seed frame. -/
theorem metadata_header_native_layout_witness :
    leDecode (((packMetadata 1 42 0 1920 1080 0 1920 3110400).drop 8).take 8)
      = 42 :=
  (metadata_header_native_layout 1 42 0 1920 1080 0 1920 3110400
    (by refine ⟨?_, ?_, ?_, ?_, ?_, ?_, ?_, ?_⟩ <;> norm_num)).2.2.2.1

theorem frameDataPath_ne_frameMetaPath (ex : FrameExporter) :
    ex.frameDataPath ≠ ex.frameMetaPath := by
  intro hcontra
  have h := congrArg String.data hcontra
  simp only [FrameExporter.frameDataPath, FrameExporter.frameMetaPath,
    String.data_append, List.append_assoc] at h
  exact absurd (List.append_cancel_left (List.append_cancel_left h))
    (by decide)

/-- C6.  Export ordering: in every call to `export_frame`, whatever the
I/O failure profile, a rename onto `frame.meta` in the emitted event trace
is strictly preceded by the write of the frame bytes to the data temp
file, the rename onto `frame.data`, and the write of a 64-byte metadata
header to the meta temp file, in that order; and `export_frame` always
returns a trace (the surrounding `except` swallows every failure, so it
never raises). -/
theorem export_ordering (ex : FrameExporter) (fid ts w h : ℕ) (pf : String)
    (st : ℕ) (data : List ℕ) (failAt : FailProfile) :
    ∀ i, (exportFrame ex fid ts w h pf st data failAt).get? i =
        some (.rename (withSuffix ex.frameMetaPath ".tmp")
          ex.frameMetaPath) →
      ∃ j0 j k bytes, j0 < j ∧ j < k ∧ k < i ∧
        (exportFrame ex fid ts w h pf st data failAt).get? j0 =
          some (.writeFile (withSuffix ex.frameDataPath ".tmp") data) ∧
        (exportFrame ex fid ts w h pf st data failAt).get? j =
          some (.rename (withSuffix ex.frameDataPath ".tmp")
            ex.frameDataPath) ∧
        (exportFrame ex fid ts w h pf st data failAt).get? k =
          some (.writeFile (withSuffix ex.frameMetaPath ".tmp") bytes) ∧
        bytes.length = 64 := by
  intro i hi
  have hne := frameDataPath_ne_frameMetaPath ex
  by_cases hinit : ex.initialized
  case neg =>
    exfalso
    simp [exportFrame, hinit] at hi
  case pos =>
    by_cases h0 : failAt = some 0
    · exfalso
      simp [exportFrame, exportFrameTry, hinit, h0] at hi
    by_cases h1 : failAt = some 1
    · exfalso
      have htr : exportFrame ex fid ts w h pf st data failAt =
          [.writeFile (withSuffix ex.frameDataPath ".tmp") data] := by
        simp [exportFrame, exportFrameTry, hinit, h0, h1]
      rw [htr] at hi
      rcases i with _ | i <;> simp at hi
    by_cases hr : packInRange METADATA_VERSION fid ts w h PIXEL_FORMAT_NV12
        st data.length
    case neg =>
      exfalso
      have htr : exportFrame ex fid ts w h pf st data failAt =
          [.writeFile (withSuffix ex.frameDataPath ".tmp") data,
           .rename (withSuffix ex.frameDataPath ".tmp") ex.frameDataPath] := by
        simp [exportFrame, exportFrameTry, hinit, h0, h1, hr]
      rw [htr] at hi
      rcases i with _ | _ | i <;> simp [ExportEvent.rename.injEq] at hi
      exact hne hi.2
    case pos =>
      by_cases h2 : failAt = some 2
      · exfalso
        have htr : exportFrame ex fid ts w h pf st data failAt =
            [.writeFile (withSuffix ex.frameDataPath ".tmp") data,
             .rename (withSuffix ex.frameDataPath ".tmp") ex.frameDataPath] := by
          simp [exportFrame, exportFrameTry, hinit, h0, h1, hr, h2]
        rw [htr] at hi
        rcases i with _ | _ | i <;> simp [ExportEvent.rename.injEq] at hi
        exact hne hi.2
      by_cases h3 : failAt = some 3
      · exfalso
        have htr : exportFrame ex fid ts w h pf st data failAt =
            [.writeFile (withSuffix ex.frameDataPath ".tmp") data,
             .rename (withSuffix ex.frameDataPath ".tmp") ex.frameDataPath,
             .writeFile (withSuffix ex.frameMetaPath ".tmp")
               (packMetadata METADATA_VERSION fid ts w h PIXEL_FORMAT_NV12
                 st data.length)] := by
          simp [exportFrame, exportFrameTry, hinit, h0, h1, hr, h2, h3]
        rw [htr] at hi
        rcases i with _ | _ | _ | i <;>
          simp [ExportEvent.rename.injEq] at hi
        exact hne hi.2
      · have htr : exportFrame ex fid ts w h pf st data failAt =
            [.writeFile (withSuffix ex.frameDataPath ".tmp") data,
             .rename (withSuffix ex.frameDataPath ".tmp") ex.frameDataPath,
             .writeFile (withSuffix ex.frameMetaPath ".tmp")
               (packMetadata METADATA_VERSION fid ts w h PIXEL_FORMAT_NV12
                 st data.length),
             .rename (withSuffix ex.frameMetaPath ".tmp")
               ex.frameMetaPath] := by
          simp [exportFrame, exportFrameTry, hinit, h0, h1, hr, h2, h3]
        rw [htr] at hi ⊢
        rcases i with _ | _ | _ | _ | i <;>
          simp [ExportEvent.rename.injEq] at hi
        · exact absurd hi.2 hne
        · exact ⟨0, 1, 2,
            packMetadata METADATA_VERSION fid ts w h PIXEL_FORMAT_NV12 st
              data.length,
            by norm_num, by norm_num, by norm_num, rfl, rfl, rfl,
            packMetadata_length _ _ _ _ _ _ _ _⟩

/-- Witness for `export_ordering`: the fully successful export of a
12-byte 4x2 frame, at the index of its `frame.meta` rename. -/
theorem export_ordering_witness :
    ∃ j0 j k bytes, j0 < j ∧ j < k ∧ k < 3 ∧
      (exportFrame ⟨"cam1", true⟩ 1 0 4 2 "nv12" 4
          (List.replicate 12 0) none).get? j0 =
        some (.writeFile
          (withSuffix (FrameExporter.frameDataPath ⟨"cam1", true⟩) ".tmp")
          (List.replicate 12 0)) ∧
      (exportFrame ⟨"cam1", true⟩ 1 0 4 2 "nv12" 4
          (List.replicate 12 0) none).get? j =
        some (.rename
          (withSuffix (FrameExporter.frameDataPath ⟨"cam1", true⟩) ".tmp")
          (FrameExporter.frameDataPath ⟨"cam1", true⟩)) ∧
      (exportFrame ⟨"cam1", true⟩ 1 0 4 2 "nv12" 4
          (List.replicate 12 0) none).get? k =
        some (.writeFile
          (withSuffix (FrameExporter.frameMetaPath ⟨"cam1", true⟩) ".tmp")
          bytes) ∧
      bytes.length = 64 :=
  export_ordering ⟨"cam1", true⟩ 1 0 4 2 "nv12" 4 (List.replicate 12 0)
    none 3 (by rfl)

/-- C4 (code bug).  `_reconcile_camera` compares `agent.state.value` —
always one of `"created"`, `"running"`, `"stopped"` — against the literal
`"CREATED"`, which never matches, so `start()` is never called: after a
full reconciliation cycle on a fresh registry with one enabled assignment,
the camera's agent still has state CREATED, not RUNNING. -/
theorem reconcile_never_starts_agent :
    ((AgentState.created.value = "CREATED") = False) ∧
    ((AgentState.running.value = "CREATED") = False) ∧
    ((AgentState.stopped.value = "CREATED") = False) ∧
    (alookup (reconcileAll ([] : Registry ℕ)
        [⟨some "cam1", some "m1", some 5, none, none⟩]).1 "cam1").map
      ReconAgent.state = some .created ∧
    ((AgentState.created = AgentState.running) = False) :=
  ⟨by decide, by decide, by decide, rfl, by decide⟩

theorem alookup_append_of_isSome {β : Type} {l₁ : List (String × β)}
    (l₂ : List (String × β)) {k : String} (h : (alookup l₁ k).isSome) :
    alookup (l₁ ++ l₂) k = alookup l₁ k := by
  induction l₁ with
  | nil => simp [alookup] at h
  | cons p l ih =>
    rw [List.cons_append]
    show (if p.1 = k then some p.2 else alookup (l ++ l₂) k) =
      if p.1 = k then some p.2 else alookup l k
    by_cases hp : p.1 = k
    · rw [if_pos hp, if_pos hp]
    · rw [if_neg hp, if_neg hp]
      have h' : (alookup l k).isSome := by
        have : alookup (p :: l) k = alookup l k := by
          show (if p.1 = k then some p.2 else alookup l k) = _
          rw [if_neg hp]
        rwa [this] at h
      exact ih h'

theorem alookup_append_of_none {β : Type} {l₁ : List (String × β)}
    (l₂ : List (String × β)) {k : String} (h : alookup l₁ k = none) :
    alookup (l₁ ++ l₂) k = alookup l₂ k := by
  induction l₁ with
  | nil => simp
  | cons p l ih =>
    rw [List.cons_append]
    show (if p.1 = k then some p.2 else alookup (l ++ l₂) k) = alookup l₂ k
    have hup : alookup (p :: l) k =
        if p.1 = k then some p.2 else alookup l k := rfl
    by_cases hp : p.1 = k
    · rw [hup, if_pos hp] at h
      exact absurd h (by simp)
    · rw [hup, if_neg hp] at h
      rw [if_neg hp]
      exact ih h

theorem alookup_isSome_iff {β : Type} (l : List (String × β)) (k : String) :
    (alookup l k).isSome ↔ k ∈ l.map Prod.fst := by
  induction l with
  | nil => simp [alookup]
  | cons p l ih =>
    by_cases hp : p.1 = k
    · simp [alookup, hp]
    · simp [alookup, hp, ih, Ne.symm hp]

theorem alookup_eq_none_iff {β : Type} (l : List (String × β)) (k : String) :
    alookup l k = none ↔ k ∉ l.map Prod.fst := by
  rw [← alookup_isSome_iff, Option.not_isSome_iff_eq_none]

theorem alookup_filter_self {β : Type} (l : List (String × β)) (k : String) :
    alookup (l.filter fun p => p.1 ≠ k) k = none := by
  induction l with
  | nil => rfl
  | cons p l ih =>
    by_cases hp : p.1 = k
    · rw [List.filter_cons_of_neg (by simp [hp])]
      exact ih
    · rw [List.filter_cons_of_pos (by simp [hp])]
      show (if p.1 = k then _ else alookup (l.filter fun p => p.1 ≠ k) k) = _
      rw [if_neg hp]
      exact ih

theorem alookup_filter_ne {β : Type} (l : List (String × β)) {k k' : String}
    (h : k' ≠ k) :
    alookup (l.filter fun p => p.1 ≠ k) k' = alookup l k' := by
  induction l with
  | nil => rfl
  | cons p l ih =>
    by_cases hp : p.1 = k
    · rw [List.filter_cons_of_neg (by simp [hp])]
      have hp' : p.1 ≠ k' := by rw [hp]; exact fun hc => h hc.symm
      show _ = if p.1 = k' then _ else alookup l k'
      rw [if_neg hp']
      exact ih
    · rw [List.filter_cons_of_pos (by simp [hp])]
      show (if p.1 = k' then _ else alookup (l.filter fun p => p.1 ≠ k) k') =
        if p.1 = k' then _ else alookup l k'
      by_cases hp' : p.1 = k'
      · rw [if_pos hp', if_pos hp']
      · rw [if_neg hp', if_neg hp']
        exact ih

theorem keys_filter_sublist {β : Type} (l : List (String × β)) (k : String) :
    ((l.filter fun p => p.1 ≠ k).map Prod.fst).Sublist (l.map Prod.fst) :=
  List.Sublist.map _ (List.filter_sublist l)

theorem alookup_map_self {β : Type} (ks : List String) (f : String → β)
    (k : String) :
    alookup (ks.map fun k => (k, f k)) k =
      if k ∈ ks then some (f k) else none := by
  induction ks with
  | nil => simp [alookup]
  | cons a ks ih =>
    by_cases ha : a = k
    · subst ha
      simp [alookup]
    · simp only [List.map_cons, alookup, ha, if_false, ih,
        List.mem_cons]
      simp [Ne.symm ha]

theorem aupsert_keys {β : Type} (l : List (String × β)) (k : String) (v : β) :
    (aupsert l k v).map Prod.fst =
      if (alookup l k).isSome then l.map Prod.fst
      else l.map Prod.fst ++ [k] := by
  unfold aupsert
  by_cases h : (alookup l k).isSome
  · simp only [h, if_true, List.map_map]
    refine List.map_congr_left fun p _ => ?_
    by_cases hp : p.1 = k
    · simp [Function.comp, hp]
    · simp [Function.comp, hp]
  · simp [h]

/-- Keys of the `desired_configs` dict built by `_reconcile_camera`:
unique, and never the empty string. -/
theorem collectDesired_keys {Val : Type} (as_ : List (Assignment Val)) :
    ((collectDesired as_).1.map Prod.fst).Nodup ∧
    "" ∉ (collectDesired as_).1.map Prod.fst := by
  suffices hgen : ∀ (acc : List (String × SubConfig Val) × ℕ),
      (acc.1.map Prod.fst).Nodup → "" ∉ acc.1.map Prod.fst →
      ((as_.foldl (fun acc a =>
          match a.modelId with
          | none => (acc.1, acc.2 + 1)
          | some mid =>
            if mid = "" then (acc.1, acc.2 + 1)
            else (aupsert acc.1 mid (buildSubscriptionConfig a), acc.2))
        acc).1.map Prod.fst).Nodup ∧
      "" ∉ ((as_.foldl (fun acc a =>
          match a.modelId with
          | none => (acc.1, acc.2 + 1)
          | some mid =>
            if mid = "" then (acc.1, acc.2 + 1)
            else (aupsert acc.1 mid (buildSubscriptionConfig a), acc.2))
        acc).1.map Prod.fst) by
    exact hgen ([], 0) (by simp) (by simp)
  induction as_ with
  | nil => intro acc h1 h2; exact ⟨h1, h2⟩
  | cons a rest ih =>
    intro acc h1 h2
    rw [List.foldl_cons]
    cases hmid : a.modelId with
    | none => exact ih _ h1 h2
    | some mid =>
      by_cases hempty : mid = ""
      · simp only [hempty, if_true]
        exact ih _ h1 h2
      · simp only [hempty, if_false]
        refine ih _ ?_ ?_
        · rw [aupsert_keys]
          by_cases hs : (alookup acc.1 mid).isSome
          · rwa [if_pos hs]
          · rw [if_neg hs, List.nodup_append]
            refine ⟨h1, List.nodup_singleton _, ?_⟩
            intro x hx hx'
            rcases List.mem_singleton.mp hx' with rfl
            exact absurd ((alookup_isSome_iff _ _).mpr hx) hs
        · rw [aupsert_keys]
          by_cases hs : (alookup acc.1 mid).isSome
          · rwa [if_pos hs]
          · rw [if_neg hs]
            intro hc
            rcases List.mem_append.mp hc with hc | hc
            · exact h2 hc
            · exact hempty (List.mem_singleton.mp hc).symm

/-- Keys of the camera grouping dict of `reconcile_all`: unique. -/
theorem groupByCamera_keys {Val : Type} (as_ : List (Assignment Val)) :
    ((groupByCamera as_).1.map Prod.fst).Nodup := by
  suffices hgen : ∀ (acc : List (String × List (Assignment Val)) × ℕ),
      (acc.1.map Prod.fst).Nodup →
      ((as_.foldl (fun acc a =>
          match a.cameraId with
          | none => (acc.1, acc.2 + 1)
          | some cid =>
            if cid = "" then (acc.1, acc.2 + 1)
            else
              match alookup acc.1 cid with
              | some grp => (aupsert acc.1 cid (grp ++ [a]), acc.2)
              | none => (acc.1 ++ [(cid, [a])], acc.2))
        acc).1.map Prod.fst).Nodup by
    exact hgen ([], 0) (by simp)
  induction as_ with
  | nil => intro acc h1; exact h1
  | cons a rest ih =>
    intro acc h1
    rw [List.foldl_cons]
    cases hcid : a.cameraId with
    | none => exact ih _ h1
    | some cid =>
      by_cases hempty : cid = ""
      · simp only [hempty, if_true]
        exact ih _ h1
      · simp only [hempty, if_false]
        cases hg : alookup acc.1 cid with
        | some grp =>
          refine ih _ ?_
          rw [aupsert_keys, if_pos (by simp [hg])]
          exact h1
        | none =>
          refine ih _ ?_
          simp only [List.map_append, List.map_cons, List.map_nil]
          rw [List.nodup_append]
          refine ⟨h1, List.nodup_singleton _, ?_⟩
          intro x hx hx'
          rcases List.mem_singleton.mp hx' with rfl
          exact absurd ((alookup_isSome_iff _ _).mpr hx) (by simp [hg])

theorem setAgent_keys {Val : Type} (reg : Registry Val) (c : String)
    (a : ReconAgent Val) :
    (setAgent reg c a).map Prod.fst = reg.map Prod.fst := by
  unfold setAgent
  rw [List.map_map]
  refine List.map_congr_left fun p _ => ?_
  by_cases hp : p.1 = c
  · simp [Function.comp, hp]
  · simp [Function.comp, hp]

theorem alookup_setAgent_self {Val : Type} {reg : Registry Val} {c : String}
    (a : ReconAgent Val) (h : (alookup reg c).isSome) :
    alookup (setAgent reg c a) c = some a := by
  induction reg with
  | nil => simp [alookup] at h
  | cons p l ih =>
    by_cases hp : p.1 = c
    · simp [setAgent, alookup, hp]
    · have h' : (alookup l c).isSome := by
        have : alookup (p :: l) c = alookup l c := by
          show (if p.1 = c then some p.2 else alookup l c) = _
          rw [if_neg hp]
        rwa [this] at h
      show alookup ((if p.1 = c then (c, a) else p) ::
        (setAgent l c a)) c = some a
      rw [if_neg hp]
      show (if p.1 = c then some p.2 else alookup (setAgent l c a) c) = some a
      rw [if_neg hp]
      exact ih h'

theorem alookup_setAgent_ne {Val : Type} (reg : Registry Val) {c c' : String}
    (a : ReconAgent Val) (h : c' ≠ c) :
    alookup (setAgent reg c a) c' = alookup reg c' := by
  induction reg with
  | nil => rfl
  | cons p l ih =>
    show alookup ((if p.1 = c then (c, a) else p) ::
      (setAgent l c a)) c' = alookup (p :: l) c'
    by_cases hp : p.1 = c
    · rw [if_pos hp]
      show (if c = c' then some a else alookup (setAgent l c a) c') = _
      rw [if_neg (fun hc => h (hc.symm)), ih]
      show _ = if p.1 = c' then some p.2 else alookup l c'
      rw [if_neg (by rw [hp]; exact fun hc => h hc.symm)]
    · rw [if_neg hp]
      show (if p.1 = c' then some p.2 else alookup (setAgent l c a) c') =
        if p.1 = c' then some p.2 else alookup l c'
      by_cases hp' : p.1 = c'
      · rw [if_pos hp', if_pos hp']
      · rw [if_neg hp', if_neg hp', ih]

theorem setAgent_eq_self {Val : Type} {reg : Registry Val} {c : String}
    {a : ReconAgent Val} (hnd : (reg.map Prod.fst).Nodup)
    (h : alookup reg c = some a) : setAgent reg c a = reg := by
  induction reg with
  | nil => rfl
  | cons p l ih =>
    show (if p.1 = c then (c, a) else p) :: setAgent l c a = p :: l
    rcases List.nodup_cons.mp hnd with ⟨hpn, hln⟩
    by_cases hp : p.1 = c
    · have hpa : p.2 = a := by
        have : alookup (p :: l) c = some p.2 := by
          show (if p.1 = c then some p.2 else _) = _
          rw [if_pos hp]
        rw [this] at h
        exact (Option.some_injective _ h.symm).symm
      have hmap : setAgent l c a = l := by
        unfold setAgent
        have hcongr : l.map (fun p => if p.1 = c then (c, a) else p) =
            l.map id := by
          refine List.map_congr_left fun q hq => ?_
          have : q.1 ≠ c := fun hc =>
            hpn (hp ▸ hc ▸ List.mem_map_of_mem Prod.fst hq)
          rw [if_neg this, id]
        rw [hcongr, List.map_id]
      have hpe : p = (c, a) := by
        rcases p with ⟨p1, p2⟩
        exact congrArg₂ Prod.mk hp hpa
      rw [if_pos hp, hmap, ← hpe]
    · have h' : alookup l c = some a := by
        have : alookup (p :: l) c = alookup l c := by
          show (if p.1 = c then some p.2 else _) = _
          rw [if_neg hp]
        rwa [this] at h
      rw [if_neg hp, ih hln h']

theorem addLoop_go {Val : Type} (desired : List (String × SubConfig Val)) :
    ∀ (toAdd : List String) (agent : ReconAgent Val) (m e : ℕ),
      toAdd.Nodup → (∀ k ∈ toAdd, k ≠ "") →
      (∀ k ∈ toAdd, alookup agent.subs k = none) →
      toAdd.foldl (addStep desired) (agent, m, e) =
        ({ agent with subs := agent.subs ++
            (toAdd.map fun k =>
              (k, (alookup desired k).getD SubConfig.empty)) },
          m + toAdd.length, e) := by
  intro toAdd
  induction toAdd with
  | nil => intro agent m e _ _ _; simp
  | cons k rest ih =>
    intro agent m e hnd hne hnone
    rw [List.foldl_cons]
    have hk0 : k ≠ "" := hne k (List.mem_cons_self _ _)
    have hkn : alookup agent.subs k = none := hnone k (List.mem_cons_self _ _)
    have hstep : addStep desired (agent, m, e) k =
        ({ agent with subs := agent.subs ++
            [(k, (alookup desired k).getD SubConfig.empty)] }, m + 1, e) := by
      unfold addStep
      rw [if_neg]
      simp [hk0, hkn]
    rw [hstep, ih _ (m + 1) e (List.nodup_cons.mp hnd).2
      (fun k' hk' => hne k' (List.mem_cons_of_mem _ hk'))
      (fun k' hk' => ?_)]
    · simp only [List.map_cons, List.append_assoc, List.singleton_append,
        List.length_cons]
      refine congrArg₂ Prod.mk rfl (congrArg₂ Prod.mk ?_ rfl)
      omega
    · have hkk : k' ≠ k := by
        rintro rfl
        exact (List.nodup_cons.mp hnd).1 hk'
      show alookup (agent.subs ++
        [(k, (alookup desired k).getD SubConfig.empty)]) k' = none
      rw [alookup_append_of_none _ (hnone k' (List.mem_cons_of_mem _ hk'))]
      show (if k = k' then _ else alookup [] k') = none
      rw [if_neg (Ne.symm hkk)]
      rfl

theorem removeLoop_go {Val : Type} :
    ∀ (toRemove : List String) (agent : ReconAgent Val) (m e : ℕ),
      toRemove.Nodup → (∀ k ∈ toRemove, (alookup agent.subs k).isSome) →
      toRemove.foldl removeStep (agent, m, e) =
        ({ agent with subs := (toRemove.foldl
            (fun s k => s.filter fun p => p.1 ≠ k) agent.subs) },
          m + toRemove.length, e) := by
  intro toRemove
  induction toRemove with
  | nil => intro agent m e _ _; simp
  | cons k rest ih =>
    intro agent m e hnd hin
    rw [List.foldl_cons, List.foldl_cons]
    have hstep : removeStep (agent, m, e) k =
        ({ agent with subs := agent.subs.filter fun p => p.1 ≠ k },
          m + 1, e) := by
      unfold removeStep
      rw [if_pos (hin k (List.mem_cons_self _ _))]
    rw [hstep, ih _ (m + 1) e (List.nodup_cons.mp hnd).2
      (fun k' hk' => ?_)]
    · refine congrArg₂ Prod.mk rfl (congrArg₂ Prod.mk ?_ rfl)
      simp
      omega
    · have hkk : k' ≠ k := by
        rintro rfl
        exact (List.nodup_cons.mp hnd).1 hk'
      show (alookup (agent.subs.filter fun p => p.1 ≠ k) k').isSome
      rw [alookup_filter_ne _ hkk]
      exact hin k' (List.mem_cons_of_mem _ hk')

theorem alookup_foldl_filter {Val : Type} (ks : List String) :
    ∀ (subs : List (String × SubConfig Val)) (k : String),
      alookup (ks.foldl (fun s k => s.filter fun p => p.1 ≠ k) subs) k =
        if k ∈ ks then none else alookup subs k := by
  induction ks with
  | nil => intro subs k; simp
  | cons a ks ih =>
    intro subs k
    rw [List.foldl_cons, ih]
    by_cases hka : k = a
    · subst hka
      by_cases hks : k ∈ ks
      · simp [hks]
      · rw [alookup_filter_self]
        simp [hks]
    · by_cases hks : k ∈ ks
      · simp [hks, hka]
      · simp only [hks, if_false, List.mem_cons]
        rw [alookup_filter_ne _ hka]
        simp [hka, hks]

theorem foldl_filter_keys_nodup {Val : Type} (ks : List String) :
    ∀ subs : List (String × SubConfig Val), SubsWF subs →
      SubsWF (ks.foldl (fun s k => s.filter fun p => p.1 ≠ k) subs) := by
  induction ks with
  | nil => intro subs h; exact h
  | cons a ks ih =>
    intro subs h
    rw [List.foldl_cons]
    exact ih _ (List.Nodup.sublist (keys_filter_sublist subs a) h)

theorem updateStep_none {Val : Type} [DecidableEq Val]
    (desired : List (String × SubConfig Val)) (acc : ReconAgent Val × ℕ × ℕ)
    {k : String} (h : alookup acc.1.subs k = none) :
    updateStep desired acc k = acc := by
  unfold updateStep
  rw [h]

theorem updateStep_eq {Val : Type} [DecidableEq Val]
    (desired : List (String × SubConfig Val)) (acc : ReconAgent Val × ℕ × ℕ)
    {k : String} {cur : SubConfig Val} (h : alookup acc.1.subs k = some cur)
    (heq : (alookup desired k).getD SubConfig.empty = cur) :
    updateStep desired acc k = acc := by
  unfold updateStep
  rw [h]
  simp only [configChanged, heq]
  simp

theorem updateStep_ne {Val : Type} [DecidableEq Val]
    (desired : List (String × SubConfig Val)) (acc : ReconAgent Val × ℕ × ℕ)
    {k : String} {cur : SubConfig Val} (h : alookup acc.1.subs k = some cur)
    (hk : k ≠ "")
    (hne : (alookup desired k).getD SubConfig.empty ≠ cur) :
    updateStep desired acc k =
      ({ acc.1 with subs := (acc.1.subs.filter fun p => p.1 ≠ k) ++
          [(k, (alookup desired k).getD SubConfig.empty)] },
        acc.2.1 + 1, acc.2.2) := by
  unfold updateStep
  rw [h]
  simp only [configChanged]
  rw [if_pos (by simpa using Ne.symm hne), if_neg]
  rintro (hc | hc)
  · exact hk hc
  · rw [alookup_filter_self] at hc
    exact absurd hc (by simp)

theorem alookup_update_one {Val : Type}
    (subs : List (String × SubConfig Val)) (k : String) (v : SubConfig Val)
    (k' : String) :
    alookup ((subs.filter fun p => p.1 ≠ k) ++ [(k, v)]) k' =
      if k' = k then some v else alookup subs k' := by
  by_cases hk : k' = k
  · subst hk
    rw [alookup_append_of_none _ (alookup_filter_self subs k')]
    simp [alookup]
  · rw [if_neg hk]
    cases hs : alookup subs k' with
    | some v' =>
      rw [alookup_append_of_isSome _ (by rw [alookup_filter_ne _ hk, hs]; rfl)]
      rw [alookup_filter_ne _ hk, hs]
    | none =>
      rw [alookup_append_of_none _ (by rw [alookup_filter_ne _ hk, hs])]
      show (if k = k' then some v else alookup [] k') = none
      rw [if_neg (Ne.symm hk)]
      rfl

theorem update_one_keys_nodup {Val : Type}
    {subs : List (String × SubConfig Val)} (hwf : SubsWF subs)
    (k : String) (v : SubConfig Val) :
    SubsWF ((subs.filter fun p => p.1 ≠ k) ++ [(k, v)]) := by
  unfold SubsWF at hwf ⊢
  rw [List.map_append, List.nodup_append]
  refine ⟨List.Nodup.sublist (keys_filter_sublist subs k) hwf,
    List.nodup_singleton _, ?_⟩
  intro x hx hx'
  rcases List.mem_singleton.mp hx' with rfl
  rcases List.mem_map.mp hx with ⟨p, hp, hpx⟩
  have := List.of_mem_filter hp
  rw [hpx] at this
  simp at this

theorem updateLoop_go {Val : Type} [DecidableEq Val]
    (desired : List (String × SubConfig Val)) :
    ∀ (toCheck : List String) (agent : ReconAgent Val) (m e : ℕ),
      toCheck.Nodup → (∀ k ∈ toCheck, k ≠ "") → SubsWF agent.subs →
      ∃ agent' m',
        toCheck.foldl (updateStep desired) (agent, m, e) = (agent', m', e) ∧
        agent'.state = agent.state ∧ agent'.cameraId = agent.cameraId ∧
        SubsWF agent'.subs ∧
        ∀ k', alookup agent'.subs k' =
          if k' ∈ toCheck ∧ (alookup agent.subs k').isSome
          then some ((alookup desired k').getD SubConfig.empty)
          else alookup agent.subs k' := by
  intro toCheck
  induction toCheck with
  | nil =>
    intro agent m e _ _ hwf
    exact ⟨agent, m, rfl, rfl, rfl, hwf, fun k' => by simp⟩
  | cons k rest ih =>
    intro agent m e hnd hne hwf
    rw [List.foldl_cons]
    have hkne : k ≠ "" := hne k (List.mem_cons_self _ _)
    have hknr : k ∉ rest := (List.nodup_cons.mp hnd).1
    cases halk : alookup agent.subs k with
    | none =>
      rw [updateStep_none desired _ halk]
      obtain ⟨agent', m', hfold, hst, hcid, hwf', hchar⟩ :=
        ih agent m e (List.nodup_cons.mp hnd).2
          (fun k' hk' => hne k' (List.mem_cons_of_mem _ hk')) hwf
      refine ⟨agent', m', hfold, hst, hcid, hwf', fun k' => ?_⟩
      rw [hchar k']
      by_cases hkk : k' = k
      · subst hkk
        simp [halk, hknr]
      · simp [List.mem_cons, hkk]
    | some cur =>
      by_cases hcfg : (alookup desired k).getD SubConfig.empty = cur
      · rw [updateStep_eq desired _ halk hcfg]
        obtain ⟨agent', m', hfold, hst, hcid, hwf', hchar⟩ :=
          ih agent m e (List.nodup_cons.mp hnd).2
            (fun k' hk' => hne k' (List.mem_cons_of_mem _ hk')) hwf
        refine ⟨agent', m', hfold, hst, hcid, hwf', fun k' => ?_⟩
        rw [hchar k']
        by_cases hkk : k' = k
        · subst hkk
          simp [halk, hknr, hcfg]
        · simp [List.mem_cons, hkk]
      · rw [updateStep_ne desired _ halk hkne hcfg]
        set agent2 : ReconAgent Val :=
          { agent with subs := (agent.subs.filter fun p => p.1 ≠ k) ++
              [(k, (alookup desired k).getD SubConfig.empty)] } with hagent2
        have hwf2 : SubsWF agent2.subs :=
          update_one_keys_nodup hwf k _
        have hchar2 : ∀ k', alookup agent2.subs k' =
            if k' = k then some ((alookup desired k).getD SubConfig.empty)
            else alookup agent.subs k' :=
          fun k' => alookup_update_one agent.subs k _ k'
        obtain ⟨agent', m', hfold, hst, hcid, hwf', hchar⟩ :=
          ih agent2 (m + 1) e (List.nodup_cons.mp hnd).2
            (fun k' hk' => hne k' (List.mem_cons_of_mem _ hk')) hwf2
        refine ⟨agent', m', hfold, hst, hcid, hwf', fun k' => ?_⟩
        rw [hchar k', hchar2 k']
        by_cases hkk : k' = k
        · subst hkk
          simp [hknr, halk]
        · simp only [hkk, if_false, List.mem_cons, hkk, false_or]

theorem updateLoop_id {Val : Type} [DecidableEq Val]
    (desired : List (String × SubConfig Val)) :
    ∀ (toCheck : List String) (agent : ReconAgent Val)
      (_hok : ∀ k ∈ toCheck, ∀ cur, alookup agent.subs k = some cur →
        (alookup desired k).getD SubConfig.empty = cur),
      toCheck.foldl (updateStep desired) (agent, 0, 0) = (agent, 0, 0) := by
  intro toCheck
  induction toCheck with
  | nil => intro agent _; rfl
  | cons k rest ih =>
    intro agent hok
    rw [List.foldl_cons]
    have hstep : updateStep desired (agent, 0, 0) k = (agent, 0, 0) := by
      cases halk : alookup agent.subs k with
      | none => exact updateStep_none desired _ halk
      | some cur =>
        exact updateStep_eq desired _ halk
          (hok k (List.mem_cons_self _ _) cur halk)
    rw [hstep]
    exact ih agent (fun k' hk' => hok k' (List.mem_cons_of_mem _ hk'))

theorem contains_iff {l : List String} {a : String} :
    l.contains a = true ↔ a ∈ l := List.elem_iff

theorem value_ne_CREATED (st : AgentState) : st.value ≠ "CREATED" := by
  cases st <;> decide

theorem addLoop_spec {Val : Type} (agent : ReconAgent Val)
    (desired : List (String × SubConfig Val)) (toAdd : List String)
    (hnd : toAdd.Nodup) (hne : ∀ k ∈ toAdd, k ≠ "")
    (hnone : ∀ k ∈ toAdd, alookup agent.subs k = none) :
    addLoop agent desired toAdd =
      ({ agent with subs := agent.subs ++
          (toAdd.map fun k =>
            (k, (alookup desired k).getD SubConfig.empty)) },
        toAdd.length, 0) := by
  unfold addLoop
  rw [addLoop_go desired toAdd agent 0 0 hnd hne hnone]
  rw [Nat.zero_add]

theorem removeLoop_spec {Val : Type} (agent : ReconAgent Val)
    (toRemove : List String) (hnd : toRemove.Nodup)
    (hin : ∀ k ∈ toRemove, (alookup agent.subs k).isSome) :
    removeLoop agent toRemove =
      ({ agent with subs := (toRemove.foldl
          (fun s k => s.filter fun p => p.1 ≠ k) agent.subs) },
        toRemove.length, 0) := by
  unfold removeLoop
  rw [removeLoop_go toRemove agent 0 0 hnd hin]
  rw [Nat.zero_add]

theorem updateLoop_spec {Val : Type} [DecidableEq Val]
    (agent : ReconAgent Val) (desired : List (String × SubConfig Val))
    (toCheck : List String) (hnd : toCheck.Nodup)
    (hne : ∀ k ∈ toCheck, k ≠ "") (hwf : SubsWF agent.subs) :
    ∃ agent' m', updateLoop agent desired toCheck = (agent', m', 0) ∧
      agent'.state = agent.state ∧ agent'.cameraId = agent.cameraId ∧
      SubsWF agent'.subs ∧
      ∀ k', alookup agent'.subs k' =
        if k' ∈ toCheck ∧ (alookup agent.subs k').isSome
        then some ((alookup desired k').getD SubConfig.empty)
        else alookup agent.subs k' :=
  updateLoop_go desired toCheck agent 0 0 hnd hne hwf

/-- After `_reconcile_camera`, the agent's subscription dict agrees (as a
map) with the desired-config dict built from the camera's assignments; the
agent state is untouched (the `"CREATED"` comparison never matches). -/
theorem reconcileCamera_state {Val : Type} [DecidableEq Val]
    (agent : ReconAgent Val) (ds : List (Assignment Val))
    (hwf : SubsWF agent.subs) :
    ∃ agent' stats, reconcileCamera agent ds = (agent', stats) ∧
      agent'.state = agent.state ∧ agent'.cameraId = agent.cameraId ∧
      SubsWF agent'.subs ∧
      ∀ k, alookup agent'.subs k = alookup (collectDesired ds).1 k := by
  have h1 : ¬(agent.state.value = "CREATED" ∧ agent.state ≠ .created) :=
    fun hc => value_ne_CREATED agent.state hc.1
  have h2 : ¬(agent.state.value = "CREATED") := value_ne_CREATED agent.state
  obtain ⟨hDnd, hDne⟩ := collectDesired_keys ds
  set D := (collectDesired ds).1 with hD
  set curIds := agent.subs.map Prod.fst with hcur
  set toAdd := (D.map Prod.fst).filter (fun k => !curIds.contains k)
    with htoAdd
  set toRemove := curIds.filter (fun k => !(D.map Prod.fst).contains k)
    with htoRemove
  set toCheck := (D.map Prod.fst).filter (fun k => curIds.contains k)
    with htoCheck
  have htoAdd_nd : toAdd.Nodup := List.Nodup.filter _ hDnd
  have htoAdd_ne : ∀ k ∈ toAdd, k ≠ "" := fun k hk => by
    rintro rfl
    exact hDne (List.mem_of_mem_filter hk)
  have htoAdd_none : ∀ k ∈ toAdd, alookup agent.subs k = none := by
    intro k hk
    have hpred := List.of_mem_filter hk
    rw [alookup_eq_none_iff]
    intro hc
    rw [contains_iff.mpr hc] at hpred
    simp at hpred
  have ha := addLoop_spec agent D toAdd htoAdd_nd htoAdd_ne htoAdd_none
  set A1 : ReconAgent Val := { agent with subs := agent.subs ++
    (toAdd.map fun k => (k, (alookup D k).getD SubConfig.empty)) } with hA1
  have hA1char : ∀ k, alookup A1.subs k =
      if k ∈ toAdd then some ((alookup D k).getD SubConfig.empty)
      else alookup agent.subs k := by
    intro k
    show alookup (agent.subs ++
      (toAdd.map fun k => (k, (alookup D k).getD SubConfig.empty))) k = _
    by_cases hk : k ∈ toAdd
    · rw [alookup_append_of_none _ (htoAdd_none k hk),
        alookup_map_self, if_pos hk, if_pos hk]
    · rw [if_neg hk]
      cases hs : alookup agent.subs k with
      | some v => rw [alookup_append_of_isSome _ (by rw [hs]; rfl), hs]
      | none =>
        rw [alookup_append_of_none _ hs, alookup_map_self, if_neg hk]
  have hA1wf : SubsWF A1.subs := by
    show ((agent.subs ++ _).map Prod.fst).Nodup
    rw [List.map_append, List.map_map, List.nodup_append]
    have hmapfst : toAdd.map ((fun p => p.1) ∘
        fun k => (k, (alookup D k).getD SubConfig.empty)) = toAdd := by
      rw [show ((fun p => p.1) ∘
        fun k => ((k : String), (alookup D k).getD SubConfig.empty)) = id
        from rfl, List.map_id]
    refine ⟨hwf, ?_, ?_⟩
    · rw [show ((fun p => Prod.fst p) ∘
        fun k => ((k : String), (alookup D k).getD SubConfig.empty)) = id
        from rfl, List.map_id]
      exact htoAdd_nd
    · intro x hx hx'
      rw [show ((fun p => Prod.fst p) ∘
        fun k => ((k : String), (alookup D k).getD SubConfig.empty)) = id
        from rfl, List.map_id] at hx'
      have := htoAdd_none x hx'
      rw [alookup_eq_none_iff] at this
      exact this hx
  have htoRemove_nd : toRemove.Nodup := List.Nodup.filter _ hwf
  have htoRemove_in : ∀ k ∈ toRemove, (alookup A1.subs k).isSome := by
    intro k hk
    have hkc : k ∈ curIds := List.mem_of_mem_filter hk
    have hknotAdd : k ∉ toAdd := by
      intro hc
      have hpred := List.of_mem_filter hc
      rw [contains_iff.mpr hkc] at hpred
      simp at hpred
    rw [hA1char k, if_neg hknotAdd, alookup_isSome_iff]
    exact hkc
  have hr := removeLoop_spec A1 toRemove htoRemove_nd htoRemove_in
  set A2 : ReconAgent Val := { A1 with subs := (toRemove.foldl
    (fun s k => s.filter fun p => p.1 ≠ k) A1.subs) } with hA2
  have hA2char : ∀ k, alookup A2.subs k =
      if k ∈ toRemove then none else alookup A1.subs k := by
    intro k
    exact alookup_foldl_filter toRemove A1.subs k
  have hA2wf : SubsWF A2.subs := foldl_filter_keys_nodup toRemove A1.subs hA1wf
  have htoCheck_nd : toCheck.Nodup := List.Nodup.filter _ hDnd
  have htoCheck_ne : ∀ k ∈ toCheck, k ≠ "" := fun k hk => by
    rintro rfl
    exact hDne (List.mem_of_mem_filter hk)
  obtain ⟨agent', m', hfold, hst, hcid, hwf', hchar⟩ :=
    updateLoop_spec A2 D toCheck htoCheck_nd htoCheck_ne hA2wf
  refine ⟨agent', ⟨toAdd.length, toRemove.length, m',
    (collectDesired ds).2 + 0 + 0 + 0⟩, ?_, ?_, ?_, hwf', ?_⟩
  · simp only [reconcileCamera, h2, false_and, if_false]
    rw [← hD, ← hcur, ← htoAdd, ← htoRemove, ← htoCheck]
    simp only [ha, hr, hfold]
  · rw [hst]
  · rw [hcid]
  · intro k
    rw [hchar k, hA2char k, hA1char k]
    by_cases hkD : k ∈ D.map Prod.fst
    · by_cases hkc : k ∈ curIds
      · have hnAdd : k ∉ toAdd := by
          intro hc
          have hpred := List.of_mem_filter hc
          rw [contains_iff.mpr hkc] at hpred
          simp at hpred
        have hnRem : k ∉ toRemove := by
          intro hc
          have hpred := List.of_mem_filter hc
          rw [contains_iff.mpr hkD] at hpred
          simp at hpred
        have hCheck : k ∈ toCheck :=
          List.mem_filter.mpr ⟨hkD, contains_iff.mpr hkc⟩
        have hsome : (alookup agent.subs k).isSome :=
          (alookup_isSome_iff _ _).mpr hkc
        obtain ⟨d, hd⟩ := Option.isSome_iff_exists.mp
          ((alookup_isSome_iff D k).mpr hkD)
        simp [hCheck, hnAdd, hnRem, hsome, hd]
      · have hcont : curIds.contains k = false :=
          Bool.eq_false_iff.mpr (fun hcc => hkc (contains_iff.mp hcc))
        have hAdd : k ∈ toAdd :=
          List.mem_filter.mpr ⟨hkD, by rw [hcont]; rfl⟩
        have hnRem : k ∉ toRemove := fun hc =>
          hkc (List.mem_of_mem_filter hc)
        have hnCheck : k ∉ toCheck := by
          intro hc
          exact hkc (contains_iff.mp (List.of_mem_filter hc))
        obtain ⟨d, hd⟩ := Option.isSome_iff_exists.mp
          ((alookup_isSome_iff D k).mpr hkD)
        simp [hnCheck, hnRem, hAdd, hd]
    · have hDnone : alookup D k = none := (alookup_eq_none_iff _ _).mpr hkD
      by_cases hkc : k ∈ curIds
      · have hnAdd : k ∉ toAdd := fun hc =>
          hkD (List.mem_of_mem_filter hc)
        have hcontD : (D.map Prod.fst).contains k = false :=
          Bool.eq_false_iff.mpr (fun hcc => hkD (contains_iff.mp hcc))
        have hRem : k ∈ toRemove :=
          List.mem_filter.mpr ⟨hkc, by rw [hcontD]; rfl⟩
        have hnCheck : k ∉ toCheck := fun hc =>
          hkD (List.mem_of_mem_filter hc)
        simp [hnCheck, hRem, hDnone]
      · have hnAdd : k ∉ toAdd := fun hc =>
          hkD (List.mem_of_mem_filter hc)
        have hnRem : k ∉ toRemove := fun hc =>
          hkc (List.mem_of_mem_filter hc)
        have hnCheck : k ∉ toCheck := fun hc =>
          hkD (List.mem_of_mem_filter hc)
        have hnone : alookup agent.subs k = none :=
          (alookup_eq_none_iff _ _).mpr (fun hc => hkc hc)
        simp [hnCheck, hnRem, hnAdd, hnone, hDnone]

/-- When the agent's subscription dict already agrees with the desired
dict, `_reconcile_camera` changes nothing and counts zero adds, removes
and updates. -/
theorem reconcileCamera_stable {Val : Type} [DecidableEq Val]
    (agent : ReconAgent Val) (ds : List (Assignment Val))
    (heq : ∀ k, alookup agent.subs k = alookup (collectDesired ds).1 k) :
    reconcileCamera agent ds =
      (agent, ⟨0, 0, 0, (collectDesired ds).2⟩) := by
  have h2 : ¬(agent.state.value = "CREATED") := value_ne_CREATED agent.state
  set D := (collectDesired ds).1 with hD
  set curIds := agent.subs.map Prod.fst with hcur
  set toAdd := (D.map Prod.fst).filter (fun k => !curIds.contains k)
    with htoAdd
  set toRemove := curIds.filter (fun k => !(D.map Prod.fst).contains k)
    with htoRemove
  set toCheck := (D.map Prod.fst).filter (fun k => curIds.contains k)
    with htoCheck
  have hmemiff : ∀ k, k ∈ curIds ↔ k ∈ D.map Prod.fst := by
    intro k
    rw [← alookup_isSome_iff, ← alookup_isSome_iff, heq k]
  have htoAdd_nil : toAdd = [] := by
    rw [htoAdd, List.filter_eq_nil_iff]
    intro k hk
    rw [contains_iff.mpr ((hmemiff k).mpr hk)]
    simp
  have htoRemove_nil : toRemove = [] := by
    rw [htoRemove, List.filter_eq_nil_iff]
    intro k hk
    rw [contains_iff.mpr ((hmemiff k).mp hk)]
    simp
  have hupd : updateLoop agent D toCheck = (agent, 0, 0) := by
    unfold updateLoop
    refine updateLoop_id D toCheck agent ?_
    intro k _ cur hcur'
    rw [heq k] at hcur'
    rw [hcur']
    rfl
  simp only [reconcileCamera, h2, false_and, if_false]
  rw [← hD, ← hcur, ← htoAdd, ← htoRemove, ← htoCheck,
    htoAdd_nil, htoRemove_nil]
  have ha : addLoop agent D [] = (agent, 0, 0) := rfl
  have hr : removeLoop agent ([] : List String) = (agent, 0, 0) := rfl
  simp only [ha, hr, hupd]
  simp

theorem alookup_eq_some_mem {β : Type} {l : List (String × β)} {k : String}
    {v : β} (h : alookup l k = some v) : ∃ p ∈ l, p.2 = v := by
  induction l with
  | nil => simp [alookup] at h
  | cons p l ih =>
    have hup : alookup (p :: l) k =
        if p.1 = k then some p.2 else alookup l k := rfl
    by_cases hp : p.1 = k
    · rw [hup, if_pos hp] at h
      exact ⟨p, List.mem_cons_self _ _, Option.some_injective _ h⟩
    · rw [hup, if_neg hp] at h
      obtain ⟨q, hq, hqv⟩ := ih h
      exact ⟨q, List.mem_cons_of_mem _ hq, hqv⟩

theorem registryWF_setAgent {Val : Type} {reg : Registry Val} {c : String}
    {a : ReconAgent Val} (hwf : RegistryWF reg) (ha : SubsWF a.subs) :
    RegistryWF (setAgent reg c a) := by
  obtain ⟨hnd, hsub⟩ := hwf
  refine ⟨by rw [setAgent_keys]; exact hnd, ?_⟩
  intro p hp
  unfold setAgent at hp
  rcases List.mem_map.mp hp with ⟨q, hq, hqp⟩
  by_cases hqc : q.1 = c
  · rw [if_pos hqc] at hqp
    rw [← hqp]
    exact ha
  · rw [if_neg hqc] at hqp
    rw [← hqp]
    exact hsub q hq

theorem registryWF_append_fresh {Val : Type} {reg : Registry Val}
    {c : String} (hwf : RegistryWF reg) (hnone : alookup reg c = none) :
    RegistryWF (reg ++ [(c, ⟨c, .created, []⟩)]) := by
  obtain ⟨hnd, hsub⟩ := hwf
  constructor
  · rw [List.map_append, List.nodup_append]
    refine ⟨hnd, by simp, ?_⟩
    intro x hx hx'
    rcases List.mem_singleton.mp (by simpa using hx') with rfl
    exact absurd ((alookup_isSome_iff _ _).mpr hx) (by simp [hnone])
  · intro p hp
    rcases List.mem_append.mp hp with hp | hp
    · exact hsub p hp
    · rcases List.mem_singleton.mp hp with rfl
      exact List.nodup_nil

/-- After one pass of the per-camera loop over well-formed state, the
registry is still well formed, every processed camera's agent matches its
desired configs, and other cameras are untouched. -/
theorem reconcileAll_fold {Val : Type} [DecidableEq Val] :
    ∀ (groups : List (String × List (Assignment Val)))
      (reg : Registry Val) (stats : ReconStats),
      (groups.map Prod.fst).Nodup → RegistryWF reg →
      RegistryWF (groups.foldl reconcileAllStep (reg, stats)).1 ∧
      (∀ g ∈ groups, ∃ ag,
        alookup (groups.foldl reconcileAllStep (reg, stats)).1 g.1 =
          some ag ∧
        ∀ k, alookup ag.subs k = alookup (collectDesired g.2).1 k) ∧
      (∀ c, c ∉ groups.map Prod.fst →
        alookup (groups.foldl reconcileAllStep (reg, stats)).1 c =
          alookup reg c) := by
  intro groups
  induction groups with
  | nil =>
    intro reg stats _ hwf
    exact ⟨hwf, by simp, fun c _ => rfl⟩
  | cons g rest ih =>
    intro reg stats hnd hwf
    rw [List.foldl_cons]
    obtain ⟨hgnr, hrnd⟩ := List.nodup_cons.mp hnd
    -- the registry and agent produced by get_or_create
    obtain ⟨a0, reg2, hga, hreg2wf, hreg2look, hreg2other, ha0wf⟩ :
        ∃ (a0 : ReconAgent Val) (reg2 : Registry Val),
          getOrCreateAgent reg g.1 = (a0, reg2) ∧ RegistryWF reg2 ∧
          (alookup reg2 g.1).isSome ∧
          (∀ c, c ≠ g.1 → alookup reg2 c = alookup reg c) ∧
          SubsWF a0.subs := by
      cases hlook : alookup reg g.1 with
      | some a =>
        refine ⟨a, reg, by simp [getOrCreateAgent, hlook], hwf,
          by simp [hlook], fun c _ => rfl, ?_⟩
        obtain ⟨p, hp, hpv⟩ := alookup_eq_some_mem hlook
        rw [← hpv]
        exact hwf.2 p hp
      | none =>
        refine ⟨⟨g.1, .created, []⟩, reg ++ [(g.1, ⟨g.1, .created, []⟩)],
          by simp [getOrCreateAgent, hlook], registryWF_append_fresh hwf hlook,
          ?_, ?_, List.nodup_nil⟩
        · rw [alookup_append_of_none _ hlook]
          simp [alookup]
        · intro c hc
          cases hs : alookup reg c with
          | some v => rw [alookup_append_of_isSome _ (by rw [hs]; rfl), hs]
          | none =>
            rw [alookup_append_of_none _ hs]
            show (if g.1 = c then _ else alookup [] c) = none
            rw [if_neg (Ne.symm hc)]
            rfl
    obtain ⟨agent', cstats, hrc, _, _, hwf', hchar⟩ :=
      reconcileCamera_state a0 g.2 ha0wf
    have hstep : reconcileAllStep (reg, stats) g =
        (setAgent reg2 g.1 agent',
          { camerasProcessed := stats.camerasProcessed + 1
            subscriptionsAdded := stats.subscriptionsAdded + cstats.added
            subscriptionsRemoved :=
              stats.subscriptionsRemoved + cstats.removed
            subscriptionsUpdated :=
              stats.subscriptionsUpdated + cstats.updated
            errors := stats.errors + cstats.errors }) := by
      simp only [reconcileAllStep, hga, hrc]
    rw [hstep]
    have hreg3wf : RegistryWF (setAgent reg2 g.1 agent') :=
      registryWF_setAgent hreg2wf hwf'
    obtain ⟨hfwf, hfgroups, hfother⟩ := ih (setAgent reg2 g.1 agent') _
      hrnd hreg3wf
    refine ⟨hfwf, ?_, ?_⟩
    · intro g' hg'
      rcases List.mem_cons.mp hg' with rfl | hg'
      · refine ⟨agent', ?_, hchar⟩
        rw [hfother g'.1 hgnr]
        exact alookup_setAgent_self agent' hreg2look
      · exact hfgroups g' hg'
    · intro c hc
      have hc1 : c ∉ rest.map Prod.fst := fun h =>
        hc (List.mem_cons_of_mem _ h)
      have hc2 : c ≠ g.1 := fun h =>
        hc (h ▸ List.mem_cons_self _ _)
      rw [hfother c hc1, alookup_setAgent_ne _ _ hc2, hreg2other c hc2]

/-- A second pass of the per-camera loop over an already converged
registry leaves the registry unchanged and adds nothing to the
add/remove/update statistics. -/
theorem reconcileAll_fold_stable {Val : Type} [DecidableEq Val] :
    ∀ (groups : List (String × List (Assignment Val)))
      (reg : Registry Val) (stats : ReconStats),
      (reg.map Prod.fst).Nodup →
      (∀ g ∈ groups, ∃ ag, alookup reg g.1 = some ag ∧
        ∀ k, alookup ag.subs k = alookup (collectDesired g.2).1 k) →
      (groups.foldl reconcileAllStep (reg, stats)).1 = reg ∧
      (groups.foldl reconcileAllStep (reg, stats)).2.subscriptionsAdded =
        stats.subscriptionsAdded ∧
      (groups.foldl reconcileAllStep (reg, stats)).2.subscriptionsRemoved =
        stats.subscriptionsRemoved ∧
      (groups.foldl reconcileAllStep (reg, stats)).2.subscriptionsUpdated =
        stats.subscriptionsUpdated := by
  intro groups
  induction groups with
  | nil => intro reg stats _ _; exact ⟨rfl, rfl, rfl, rfl⟩
  | cons g rest ih =>
    intro reg stats hnd hconv
    rw [List.foldl_cons]
    obtain ⟨ag, hlook, hagchar⟩ := hconv g (List.mem_cons_self _ _)
    have hstep : reconcileAllStep (reg, stats) g =
        (reg, { camerasProcessed := stats.camerasProcessed + 1
                subscriptionsAdded := stats.subscriptionsAdded + 0
                subscriptionsRemoved := stats.subscriptionsRemoved + 0
                subscriptionsUpdated := stats.subscriptionsUpdated + 0
                errors := stats.errors + (collectDesired g.2).2 }) := by
      simp only [reconcileAllStep,
        show getOrCreateAgent reg g.1 = (ag, reg) by
          simp [getOrCreateAgent, hlook],
        reconcileCamera_stable ag g.2 hagchar,
        setAgent_eq_self hnd hlook]
    rw [hstep]
    obtain ⟨hreg, hadd, hrem, hupd⟩ := ih reg _ hnd
      (fun g' hg' => hconv g' (List.mem_cons_of_mem _ hg'))
    refine ⟨hreg, ?_, ?_, ?_⟩
    · simpa using hadd
    · simpa using hrem
    · simpa using hupd

/-- C7.  Reconciliation idempotence: for every well-formed starting
registry and every assignment list, running `reconcile_all` twice against
the same backend data yields `subscriptions_added = 0`,
`subscriptions_removed = 0` and `subscriptions_updated = 0` on the second
run. -/
theorem reconcile_idempotent {Val : Type} [DecidableEq Val]
    (reg : Registry Val) (assignments : List (Assignment Val))
    (hwf : RegistryWF reg) :
    (reconcileAll (reconcileAll reg assignments).1
        assignments).2.subscriptionsAdded = 0 ∧
    (reconcileAll (reconcileAll reg assignments).1
        assignments).2.subscriptionsRemoved = 0 ∧
    (reconcileAll (reconcileAll reg assignments).1
        assignments).2.subscriptionsUpdated = 0 := by
  by_cases hemp : assignments.isEmpty
  · simp [reconcileAll, hemp]
  · obtain ⟨h1wf, h1groups, -⟩ :=
      reconcileAll_fold (groupByCamera assignments).1 reg
        { camerasProcessed := 0, subscriptionsAdded := 0
          subscriptionsRemoved := 0, subscriptionsUpdated := 0
          errors := (groupByCamera assignments).2 }
        (groupByCamera_keys assignments) hwf
    have hrun1 : (reconcileAll reg assignments).1 =
        ((groupByCamera assignments).1.foldl reconcileAllStep
          (reg, { camerasProcessed := 0, subscriptionsAdded := 0
                  subscriptionsRemoved := 0, subscriptionsUpdated := 0
                  errors := (groupByCamera assignments).2 })).1 := by
      simp [reconcileAll, hemp]
    obtain ⟨-, hadd, hrem, hupd⟩ :=
      reconcileAll_fold_stable (groupByCamera assignments).1
        (reconcileAll reg assignments).1
        { camerasProcessed := 0, subscriptionsAdded := 0
          subscriptionsRemoved := 0, subscriptionsUpdated := 0
          errors := (groupByCamera assignments).2 }
        (by rw [hrun1]; exact h1wf.1)
        (by rw [hrun1]; exact h1groups)
    have hrun2 : (reconcileAll (reconcileAll reg assignments).1
        assignments) =
        ((groupByCamera assignments).1.foldl reconcileAllStep
          ((reconcileAll reg assignments).1,
            { camerasProcessed := 0, subscriptionsAdded := 0
              subscriptionsRemoved := 0, subscriptionsUpdated := 0
              errors := (groupByCamera assignments).2 })) := by
      simp [reconcileAll, hemp]
    rw [hrun2]
    exact ⟨hadd, hrem, hupd⟩

/-- Witness for `reconcile_idempotent`: an empty registry and one enabled
assignment. -/
theorem reconcile_idempotent_witness :
    (reconcileAll (reconcileAll ([] : Registry ℕ)
        [⟨some "cam1", some "m1", some 5, none, none⟩]).1
      [⟨some "cam1", some "m1", some 5, none, none⟩]).2.subscriptionsAdded
      = 0 :=
  (reconcile_idempotent ([] : Registry ℕ)
    [⟨some "cam1", some "m1", some 5, none, none⟩]
    ⟨List.nodup_nil, by simp⟩).1

end VasKernel
